import Mathlib

/-!
Verification development for the adgent-sdk VAST player core.

Shallow embedding of `src/core/AdTracker.ts`, `src/core/VASTParser.ts`,
`src/core/AdPlayer.ts` and `src/utils/macros.ts`.

Modelling conventions:
* JavaScript numbers are modelled as exact rationals (`Rat`) plus an explicit
  `nan` constructor (`JsNum`), since all arithmetic the claims exercise is
  exact decimal arithmetic.
* The ambient nondeterminism of `Date.now()` and `Math.random()` is passed in
  as explicit `now`/`rand` string parameters.
* Network fetches are modelled as a pure `World : String → FetchOutcome`
  function; the XML library (`fast-xml-parser`) is abstracted by letting the
  world return the structured element tree that `parseXml` consumes.
* Fire-and-forget pixel deliveries and event emissions are recorded in an
  explicit effect log; each log entry additionally carries the raw
  (pre-macro-substitution) URL and the originating call site so that
  deliveries can be counted per registered URL.
-/

namespace Adgent

/-- A JavaScript number: either NaN or an exact rational value. -/
inductive JsNum where
  | nan
  | val (q : Rat)
deriving Repr, DecidableEq

/-- JS `x || 0` on an optional number: `undefined`, `NaN` and `0` all give `0`. -/
def JsNum.or0 : Option JsNum → Rat
  | none => 0
  | some .nan => 0
  | some (.val q) => q

/-- `pat` is a leading segment of `l` (character-by-character). -/
def leadsWith : List Char → List Char → Bool
  | [], _ => true
  | _ :: _, [] => false
  | p :: ps, c :: cs => p == c && leadsWith ps cs

/-- `pat` occurs somewhere inside `l` (JS `String.prototype.includes`). -/
def hasSubList (pat : List Char) : List Char → Bool
  | [] => leadsWith pat []
  | c :: cs => leadsWith pat (c :: cs) || hasSubList pat cs

/-- JS `s.includes(pat)`. -/
def strIncludes (s pat : String) : Bool :=
  hasSubList pat.toList s.toList

/-- JS `s.endsWith(suffix)`. -/
def strEndsWith (s suffix : String) : Bool :=
  leadsWith suffix.toList.reverse s.toList.reverse

/-- Fuel-driven worker for literal global replacement; the fuel only bounds
the recursion depth and never runs out when seeded with the text length,
since a non-empty matched pattern always consumes at least one character. -/
def replaceAllFuel (pat repl : List Char) : Nat → List Char → List Char
  | _, [] => []
  | 0, l => l
  | fuel + 1, c :: cs =>
    if pat ≠ [] ∧ leadsWith pat (c :: cs) then
      repl ++ replaceAllFuel pat repl fuel ((c :: cs).drop pat.length)
    else
      c :: replaceAllFuel pat repl fuel cs

/-- Leftmost, non-overlapping replacement of every occurrence of `pat` by
`repl`, modelling JS `s.replace(/pat/g, repl)` for a literal pattern. -/
def replaceAllL (pat repl l : List Char) : List Char :=
  replaceAllFuel pat repl l.length l

/-- String-level wrapper for `replaceAllL`. -/
def strReplaceAll (s pat repl : String) : String :=
  String.mk (replaceAllL pat.toList repl.toList s.toList)

/-- Macro replacement context (`src/utils/macros.ts`, `MacroContext`). -/
structure MacroContext where
  assetUri : Option String := none
  contentPlayhead : Option Rat := none
  adPlayhead : Option Rat := none
  errorCode : Option Int := none
  breakPosition : Option Int := none
  adType : Option String := none
deriving Repr, DecidableEq

/-- Characters `encodeURIComponent` leaves unescaped. -/
def uriUnreserved (c : Char) : Bool :=
  (('A' ≤ c && c ≤ 'Z') || ('a' ≤ c && c ≤ 'z') || ('0' ≤ c && c ≤ '9')
    || c == '-' || c == '_' || c == '.' || c == '!' || c == '~'
    || c == '*' || c == '\'' || c == '(' || c == ')')

/-- One hexadecimal digit, uppercase. -/
def hexDigit (n : Nat) : Char :=
  "0123456789ABCDEF".toList.getD n '0'

/-- The UTF-8 bytes of a code point, as naturals. -/
def utf8Bytes (n : Nat) : List Nat :=
  if n < 0x80 then [n]
  else if n < 0x800 then [0xC0 + n / 64, 0x80 + n % 64]
  else if n < 0x10000 then [0xE0 + n / 4096, 0x80 + (n / 64) % 64, 0x80 + n % 64]
  else [0xF0 + n / 262144, 0x80 + (n / 4096) % 64, 0x80 + (n / 64) % 64, 0x80 + n % 64]

/-- Percent-encode every UTF-8 byte of a character. -/
def pctEncodeChar (c : Char) : List Char :=
  (utf8Bytes c.toNat).foldr
    (fun b acc => '%' :: hexDigit (b / 16 % 16) :: hexDigit (b % 16) :: acc) []

/-- Model of JS `encodeURIComponent`: keeps unreserved ASCII characters and
percent-encodes every UTF-8 byte of the rest. -/
def encodeURIComponent (s : String) : String :=
  String.mk <| s.toList.foldr
    (fun c acc => if uriUnreserved c then c :: acc else pctEncodeChar c ++ acc) []

/-- Truncation towards zero, as JS `%` uses on its quotient. -/
def ratTrunc (q : Rat) : Int :=
  if 0 ≤ q then q.floor else q.ceil

/-- JS remainder `a % b` (sign follows the dividend). -/
def jsMod (a b : Rat) : Rat :=
  a - b * (ratTrunc (a / b) : Rat)

/-- Zero-pad a decimal string on the left to width `w`. -/
def padZero (w : Nat) (s : String) : String :=
  String.mk (List.replicate (w - s.length) '0') ++ s

/-- `formatPlayhead` from `src/utils/macros.ts`: seconds → `HH:MM:SS.mmm`. -/
def formatPlayhead (seconds : Rat) : String :=
  let hours : Int := (seconds / 3600).floor
  let minutes : Int := (jsMod seconds 3600 / 60).floor
  let secs : Int := (jsMod seconds 60).floor
  let ms : Int := (jsMod seconds 1 * 1000).floor
  padZero 2 (toString hours) ++ ":" ++ padZero 2 (toString minutes) ++ ":"
    ++ padZero 2 (toString secs) ++ "." ++ padZero 3 (toString ms)

/-- `replaceMacros` from `src/utils/macros.ts`.  `now` is the string rendering
of `Date.now()` and `rand` the random cache-busting token of this call. -/
def replaceMacros (now rand : String) (url : String) (context : MacroContext) : String :=
  let r := strReplaceAll url "[TIMESTAMP]" now
  let r := strReplaceAll r "[CACHEBUSTING]" rand
  let r := match context.assetUri with
    | some a => strReplaceAll r "[ASSETURI]" (encodeURIComponent a)
    | none => r
  let r := match context.contentPlayhead with
    | some p => strReplaceAll r "[CONTENTPLAYHEAD]" (formatPlayhead p)
    | none => r
  let r := match context.adPlayhead with
    | some p => strReplaceAll r "[ADPLAYHEAD]" (formatPlayhead p)
    | none => r
  let r := match context.errorCode with
    | some e => strReplaceAll r "[ERRORCODE]" (toString e)
    | none => r
  let r := match context.breakPosition with
    | some b => strReplaceAll r "[BREAKPOSITION]" (toString b)
    | none => r
  let r := match context.adType with
    | some t => strReplaceAll r "[ADTYPE]" t
    | none => r
  r

/-- One tracking endpoint (`TrackingEvent` in `src/types/vast.ts`). -/
structure TrackingEvent where
  event : String
  url : String
  offset : Option JsNum := none
deriving Repr, DecidableEq

/-- Association-list model of a JS `Map` from event type to endpoint list;
`setKey` keeps the position of an existing key, as `Map.set` does. -/
def setKey (k : String) (v : List TrackingEvent) :
    List (String × List TrackingEvent) → List (String × List TrackingEvent)
  | [] => [(k, v)]
  | p :: rest => if p.1 == k then (k, v) :: rest else p :: setKey k v rest

/-- Lookup in the association-list map. -/
def getKey (k : String) : List (String × List TrackingEvent) → Option (List TrackingEvent)
  | [] => none
  | p :: rest => if p.1 == k then some p.2 else getKey k rest

/-- `AdTracker.groupEventsByType`: fold the event list into the per-type map,
appending each event to the list already stored for its type. -/
def groupEventsByType (events : List TrackingEvent) : List (String × List TrackingEvent) :=
  events.foldl (fun m e => setKey e.event ((getKey e.event m).getD [] ++ [e]) m) []

/-- Mutable state of an `AdTracker` instance. -/
structure TrackerState where
  trackingEvents : List (String × List TrackingEvent)
  firedEvents : List String
  macroContext : MacroContext
deriving Repr, DecidableEq

/-- `new AdTracker(events)`. -/
def mkTracker (events : List TrackingEvent) : TrackerState :=
  { trackingEvents := groupEventsByType events
    firedEvents := []
    macroContext := {} }

/-- `AdTracker.updateMacroContext`; field merges are written out at each call
site, since the TS argument is a partial record. -/
def TrackerState.updateMacroContext (st : TrackerState) (ctx : MacroContext) : TrackerState :=
  { st with macroContext := ctx }

/-- The loop body of `AdTracker.track`: walks the endpoint list, skipping
already-fired `(type, url)` keys when `once`, firing the rest.  Returns the
final fired-set and the log of fired pixels as (raw url, delivered url). -/
def trackAux (eventType : String) (ctx : MacroContext) (once : Bool) (now rand : String) :
    List TrackingEvent → List String → List String × List (String × String)
  | [], fired => (fired, [])
  | e :: es, fired =>
    let eventKey := eventType ++ ":" ++ e.url
    if once && fired.contains eventKey then
      trackAux eventType ctx once now rand es fired
    else
      let fired' := if once then fired ++ [eventKey] else fired
      let rest := trackAux eventType ctx once now rand es fired'
      (rest.1, (e.url, replaceMacros now rand e.url ctx) :: rest.2)

/-- `AdTracker.track(eventType, once)`.  Returns the updated tracker state and
the pixel log of this call. -/
def TrackerState.track (st : TrackerState) (eventType : String) (once : Bool)
    (now rand : String) : TrackerState × List (String × String) :=
  match getKey eventType st.trackingEvents with
  | none => (st, [])
  | some events =>
    let r := trackAux eventType st.macroContext once now rand events st.firedEvents
    ({ st with firedEvents := r.1 }, r.2)

/-- `AdTracker.fireImpressions`: deliver every URL unconditionally. -/
def TrackerState.fireImpressions (st : TrackerState) (urls : List String)
    (now rand : String) : List (String × String) :=
  urls.map (fun u => (u, replaceMacros now rand u st.macroContext))

/-- `AdTracker.fireError`: deliver every URL with `errorCode` injected into the
context for this call only. -/
def TrackerState.fireError (st : TrackerState) (urls : List String) (errorCode : Int)
    (now rand : String) : List (String × String) :=
  let ctx := { st.macroContext with errorCode := some errorCode }
  urls.map (fun u => (u, replaceMacros now rand u ctx))

/-- `AdTracker.reset`: clears only the fired-set. -/
def TrackerState.reset (st : TrackerState) : TrackerState :=
  { st with firedEvents := [] }

/-- One playable rendition (`MediaFile` in `src/types/vast.ts`).  `width` and
`height` come from `parseInt(...) || 0`; `bitrate` from a guarded `parseInt`
and may therefore be `NaN`. -/
structure MediaFile where
  url : String
  delivery : String := "progressive"
  type : String := "video/mp4"
  width : Int := 0
  height : Int := 0
  bitrate : Option JsNum := none
  codec : Option String := none
deriving Repr, DecidableEq

/-- Linear creative payload (`Linear` in `src/types/vast.ts`). -/
structure Linear where
  duration : JsNum
  skipOffset : Option JsNum := none
  mediaFiles : List MediaFile := []
  trackingEvents : List TrackingEvent := []
  clickThrough : Option String := none
deriving Repr, DecidableEq

/-- Creative unit (`Creative` in `src/types/vast.ts`). -/
structure Creative where
  id : Option String := none
  sequence : Option Int := none
  linear : Option Linear := none
deriving Repr, DecidableEq

/-- Wrapper link (`Wrapper` in `src/types/vast.ts`). -/
structure Wrapper where
  vastAdTagURI : String
  followAdditionalWrappers : Bool := true
  allowMultipleAds : Bool := false
  fallbackOnNoAd : Bool := false
deriving Repr, DecidableEq

/-- One Ad entry (`Ad` in `src/types/vast.ts`). -/
structure Ad where
  id : String := ""
  sequence : Option Int := none
  impressions : List String := []
  errors : List String := []
  creatives : List Creative := []
  wrapper : Option Wrapper := none
deriving Repr, DecidableEq

/-- Parsed document (`VASTResponse` in `src/types/vast.ts`). -/
structure VASTResponse where
  version : String
  ads : List Ad
  errors : List String
deriving Repr, DecidableEq

/-- VAST error codes (`VASTErrorCode` in `src/types/vast.ts`). -/
def VASTErrorCode.XML_PARSING_ERROR : Int := 100
def VASTErrorCode.GENERAL_WRAPPER_ERROR : Int := 300
def VASTErrorCode.WRAPPER_TIMEOUT : Int := 301
def VASTErrorCode.WRAPPER_LIMIT_REACHED : Int := 302
def VASTErrorCode.NO_VAST_RESPONSE : Int := 303
def VASTErrorCode.GENERAL_LINEAR_ERROR : Int := 400
def VASTErrorCode.FILE_NOT_FOUND : Int := 401
def VASTErrorCode.MEDIA_TIMEOUT : Int := 402
def VASTErrorCode.MEDIA_NOT_SUPPORTED : Int := 403
def VASTErrorCode.GENERAL_COMPANION_ERROR : Int := 600
def VASTErrorCode.UNDEFINED_ERROR : Int := 900

/-- ASCII decimal digit test (JS regex `\d`). -/
def isDigitChar (c : Char) : Bool :=
  '0' ≤ c && c ≤ '9'

/-- Longest leading run of decimal digits; `none` if the first character is not
a digit (models a greedy `\d+`). -/
def takeDigits (l : List Char) : Option (List Char × List Char) :=
  match l.span isDigitChar with
  | (ds, rest) => if ds.isEmpty then none else some (ds, rest)

/-- Decimal digits to a natural number. -/
def digitsToNat (ds : List Char) : Nat :=
  ds.foldl (fun n c => 10 * n + (c.toNat - '0'.toNat)) 0

/-- Decimal fraction digits to an exact rational (`"500"` ↦ `1/2`). -/
def fracToRat (ds : List Char) : Rat :=
  (digitsToNat ds : Rat) / ((10 : Rat) ^ ds.length)

/-- Whitespace skipped by JS `parseFloat`. -/
def isJsSpace (c : Char) : Bool :=
  c == ' ' || c == '\t' || c == '\n' || c == '\r'

/-- The optional exponent suffix recognised by JS `parseFloat`
(`e`/`E`, optional sign, at least one digit; otherwise ignored). -/
def parseExp (l : List Char) : Int :=
  match l with
  | [] => 0
  | c :: rest =>
    if c == 'e' || c == 'E' then
      match rest with
      | [] => 0
      | c2 :: r2 =>
        if c2 == '+' then
          match takeDigits r2 with
          | some (ds, _) => (digitsToNat ds : Int)
          | none => 0
        else if c2 == '-' then
          match takeDigits r2 with
          | some (ds, _) => -(digitsToNat ds : Int)
          | none => 0
        else
          match takeDigits rest with
          | some (ds, _) => (digitsToNat ds : Int)
          | none => 0
    else 0

/-- Scale a rational by a power of ten. -/
def scalePow10 (q : Rat) (e : Int) : Rat :=
  if 0 ≤ e then q * (10 : Rat) ^ e.toNat else q / (10 : Rat) ^ (-e).toNat

/-- Model of JS `parseFloat` on the list of characters: skip whitespace, read
an optional sign and the longest decimal-number segment; `nan` if no digits are
found.  (The `Infinity` literal is not modelled; no input here uses it.) -/
def parseFloatL (l : List Char) : JsNum :=
  let l := l.dropWhile isJsSpace
  let signed : Rat × List Char :=
    match l with
    | [] => (1, l)
    | c :: rest => if c == '-' then (-1, rest) else if c == '+' then (1, rest) else (1, l)
  let sign := signed.1
  let body := signed.2
  match takeDigits body with
  | some (ds, rest) =>
    match rest with
    | [] => .val (sign * (digitsToNat ds : Rat))
    | c :: r2 =>
      if c == '.' then
        match takeDigits r2 with
        | some (fs, r3) =>
          .val (sign * scalePow10 ((digitsToNat ds : Rat) + fracToRat fs) (parseExp r3))
        | none => .val (sign * scalePow10 (digitsToNat ds : Rat) (parseExp r2))
      else .val (sign * scalePow10 (digitsToNat ds : Rat) (parseExp rest))
  | none =>
    match body with
    | [] => .nan
    | c :: r2 =>
      if c == '.' then
        match takeDigits r2 with
        | some (fs, r3) => .val (sign * scalePow10 (fracToRat fs) (parseExp r3))
        | none => .nan
      else .nan

/-- JS `parseFloat(s)`. -/
def parseFloat (s : String) : JsNum :=
  parseFloatL s.toList

/-- Try to match the regex `(\d+):(\d+):(\d+(?:\.\d+)?)` at the head of `l`,
returning the summed seconds `H*3600 + M*60 + S`. -/
def matchTimecode (l : List Char) : Option Rat :=
  match takeDigits l with
  | none => none
  | some (hs, r1) =>
    match r1 with
    | [] => none
    | c1 :: r2 =>
      if c1 == ':' then
        match takeDigits r2 with
        | none => none
        | some (ms, r3) =>
          match r3 with
          | [] => none
          | c2 :: r4 =>
            if c2 == ':' then
              match takeDigits r4 with
              | none => none
              | some (ss, r5) =>
                let secs : Rat :=
                  match r5 with
                  | [] => (digitsToNat ss : Rat)
                  | c3 :: r6 =>
                    if c3 == '.' then
                      match takeDigits r6 with
                      | some (fs, _) => (digitsToNat ss : Rat) + fracToRat fs
                      | none => (digitsToNat ss : Rat)
                    else (digitsToNat ss : Rat)
                some ((digitsToNat hs : Rat) * 3600 + (digitsToNat ms : Rat) * 60 + secs)
            else none
      else none

/-- Leftmost match of the timecode regex inside `l` (JS `String.match` with an
unanchored pattern). -/
def findTimecode : List Char → Option Rat
  | [] => none
  | c :: cs =>
    match matchTimecode (c :: cs) with
    | some v => some v
    | none => findTimecode cs

/-- `VASTParser.parseDuration` (string case): trailing `%` divides the
`parseFloat` of the whole string by 100; otherwise the first `HH:MM:SS[.mmm]`
segment is summed; otherwise `parseFloat(s) || 0`. -/
def parseDuration (duration : String) : JsNum :=
  if strEndsWith duration "%" then
    match parseFloat duration with
    | .nan => .nan
    | .val q => .val (q / 100)
  else
    match findTimecode duration.toList with
    | some v => .val v
    | none => .val (JsNum.or0 (some (parseFloat duration)))

/-- The sort key of `VASTParser.selectBestMediaFile`: distance from the target
bitrate plus a 10000 penalty for heights above 1080. -/
def mediaScore (targetBitrate : Rat) (mf : MediaFile) : Rat :=
  |JsNum.or0 mf.bitrate - targetBitrate| + (if mf.height > 1080 then 10000 else 0)

/-- Insert into an ascending list, placing the new (earlier) element before
every element of equal score: the stable sort mandated for JS `Array.sort`. -/
def insertByScore (score : MediaFile → Rat) (x : MediaFile) :
    List MediaFile → List MediaFile
  | [] => [x]
  | y :: ys => if score y < score x then y :: insertByScore score x ys else x :: y :: ys

/-- Stable sort by score (insertion sort). -/
def sortByScore (score : MediaFile → Rat) (l : List MediaFile) : List MediaFile :=
  l.foldr (insertByScore score) []

/-- `VASTParser.selectBestMediaFile`. -/
def selectBestMediaFile (mediaFiles : List MediaFile) (targetBitrate : Rat := 2500) :
    Option MediaFile :=
  if mediaFiles.length = 0 then none
  else
    let mp4Files := mediaFiles.filter
      (fun mf => strIncludes mf.type "mp4" || strIncludes mf.type "video/mp4")
    let candidates := if mp4Files.length > 0 then mp4Files else mediaFiles
    (sortByScore (mediaScore targetBitrate) candidates).head?

/-- The media files `selectBestMediaFile` actually considers (its mp4 filter). -/
def consideredCandidates (mediaFiles : List MediaFile) : List MediaFile :=
  let mp4Files := mediaFiles.filter
    (fun mf => strIncludes mf.type "mp4" || strIncludes mf.type "video/mp4")
  if mp4Files.length > 0 then mp4Files else mediaFiles

/-- `VASTParser.getWrapperTrackingEvents`: all Linear tracking events across
the wrapper's own creatives. -/
def getWrapperTrackingEvents (wrapper : Ad) : List TrackingEvent :=
  wrapper.creatives.foldr
    (fun c acc => match c.linear with
      | some l => l.trackingEvents ++ acc
      | none => acc)
    []

/-- `VASTParser.mergeWrapperTracking`: prepend the wrapper's impressions,
errors, and aggregated Linear tracking events onto the nested ad. -/
def mergeWrapperTracking (wrapper nested : Ad) : Ad :=
  { nested with
    impressions := wrapper.impressions ++ nested.impressions
    errors := wrapper.errors ++ nested.errors
    creatives := nested.creatives.map (fun creative =>
      { creative with
        linear := creative.linear.map (fun l =>
          { l with trackingEvents := getWrapperTrackingEvents wrapper ++ l.trackingEvents }) }) }

/-- `VASTParser.aggregateTrackingEvents`. -/
def aggregateTrackingEvents (ads : List Ad) : List TrackingEvent :=
  ads.foldr (fun ad acc => getWrapperTrackingEvents ad ++ acc) []

/-- `VASTParser.aggregateImpressions`. -/
def aggregateImpressions (ads : List Ad) : List String :=
  ads.foldr (fun ad acc => ad.impressions ++ acc) []

/-- The element tree `xmlParser.parse` hands to `parseXml`; the XML library is
abstracted, so the `VAST` root (when present) already carries its structured
ads and document-level error URLs. -/
structure RawVast where
  version : Option String := none
  ads : List Ad := []
  errors : List String := []
deriving Repr, DecidableEq

/-- Outcome of one network fetch for a URL. -/
inductive FetchOutcome where
  /-- The fetch promise rejected (abort/timeout/network), with the runtime's
  error message. -/
  | netError (msg : String)
  /-- An HTTP response: status, status text, and the parsed body; `vast = none`
  models a body with no `VAST` root element. -/
  | response (status : Nat) (statusText : String) (vast : Option RawVast)
deriving Repr, DecidableEq

/-- The injectable transport: what fetching each URL yields. -/
def World : Type := String → FetchOutcome

/-- `VASTParser.fetchWithTimeout`: a rejected fetch surfaces its message; a
non-2xx status becomes `HTTP <status>: <statusText>`. -/
def fetchWithTimeout (world : World) (url : String) : Except String (Option RawVast) :=
  match world url with
  | .netError msg => .error msg
  | .response status statusText vast =>
    if 200 ≤ status ∧ status < 300 then .ok vast
    else .error ("HTTP " ++ toString status ++ ": " ++ statusText)

/-- `VASTParser.parseXml`: missing `VAST` root is an error; the version
defaults to `"4.0"` when absent or falsy. -/
def parseXml (vast : Option RawVast) : Except String VASTResponse :=
  match vast with
  | none => .error "Invalid VAST: missing VAST element"
  | some v =>
    .ok { version := match v.version with
            | some s => if s = "" then "4.0" else s
            | none => "4.0"
          ads := v.ads
          errors := v.errors }

/-- Truthiness of `ad.wrapper?.vastAdTagURI`. -/
def hasWrapperTag (ad : Ad) : Bool :=
  match ad.wrapper with
  | some w => w.vastAdTagURI ≠ ""
  | none => false

mutual

/-- `VASTParser.fetchAndParse`: depth guard, fetch, parse, then resolve every
wrapper ad of the document at `depth + 1` and flatten. -/
def fetchAndParse (world : World) (maxWrapperDepth : Nat) (url : String) (depth : Nat) :
    Except String VASTResponse :=
  if h : maxWrapperDepth ≤ depth then
    .error ("Wrapper limit exceeded (max: " ++ toString maxWrapperDepth ++ ")")
  else
    match fetchWithTimeout world url with
    | .error msg => .error msg
    | .ok body =>
      match parseXml body with
      | .error msg => .error msg
      | .ok parsed =>
        match resolveAdList world maxWrapperDepth parsed.ads (depth + 1) with
        | .error msg => .error msg
        | .ok adLists => .ok { parsed with ads := adLists.flatten }
termination_by (maxWrapperDepth - depth, 0, 0)

/-- The `Promise.all` over `parsed.ads.map(...)` in `fetchAndParse`: each
wrapper ad resolves recursively, each non-wrapper ad maps to itself. -/
def resolveAdList (world : World) (maxWrapperDepth : Nat) (ads : List Ad) (depth : Nat) :
    Except String (List (List Ad)) :=
  match ads with
  | [] => .ok []
  | ad :: rest =>
    let head : Except String (List Ad) :=
      if hasWrapperTag ad then resolveWrapper world maxWrapperDepth ad depth
      else .ok [ad]
    match head with
    | .error msg => .error msg
    | .ok resolved =>
      match resolveAdList world maxWrapperDepth rest depth with
      | .error msg => .error msg
      | .ok rests => .ok (resolved :: rests)
termination_by (maxWrapperDepth - depth, 2, ads.length)

/-- `VASTParser.resolveWrapper`: fetch the nested document at this depth, merge
wrapper tracking into every produced ad; on failure fall back to an empty ad
list when `fallbackOnNoAd` is set, else propagate. -/
def resolveWrapper (world : World) (maxWrapperDepth : Nat) (wrapperAd : Ad) (depth : Nat) :
    Except String (List Ad) :=
  match h : wrapperAd.wrapper with
  | none => .ok [wrapperAd]
  | some w =>
    if w.vastAdTagURI = "" then .ok [wrapperAd]
    else
      match fetchAndParse world maxWrapperDepth w.vastAdTagURI depth with
      | .ok nestedResponse =>
        .ok (nestedResponse.ads.map (mergeWrapperTracking wrapperAd))
      | .error msg =>
        if w.fallbackOnNoAd then .ok [] else .error msg
termination_by (maxWrapperDepth - depth, 1, 0)

end

/-- A tagged parser failure (`ParseResult.error` in `src/core/VASTParser.ts`). -/
structure ParseError where
  code : Int
  message : String
deriving Repr, DecidableEq

/-- `ParseResult` from `src/core/VASTParser.ts`. -/
structure ParseResult where
  success : Bool
  response : Option VASTResponse
  error : Option ParseError
deriving Repr, DecidableEq

/-- `VASTParser.parse`: every failure of the recursive resolution is returned
as `GENERAL_WRAPPER_ERROR` (300) with the thrown message. -/
def VASTParser.parse (world : World) (maxWrapperDepth : Nat) (vastUrl : String) :
    ParseResult :=
  match fetchAndParse world maxWrapperDepth vastUrl 0 with
  | .ok response => { success := true, response := some response, error := none }
  | .error msg =>
    { success := false
      response := none
      error := some { code := VASTErrorCode.GENERAL_WRAPPER_ERROR, message := msg } }

/-- `PlaybackStatus` from `src/types/player.ts`. -/
inductive PlaybackStatus where
  | idle
  | loading
  | ready
  | playing
  | paused
  | completed
  | error
  | waitingForInteraction
deriving Repr, DecidableEq

/-- `AdError` from `src/types/player.ts`. -/
structure AdError where
  code : Int
  message : String
  recoverable : Bool := false
deriving Repr, DecidableEq

/-- Observable effects of the orchestrator.  Pixel entries record the raw
(pre-substitution) URL, the delivered URL, and the call site that fired them;
`emitted` records the listeners the event was dispatched to. -/
inductive Effect where
  | trackPixel (eventType : String) (raw : String) (url : String)
  | impressionPixel (raw : String) (url : String)
  | errorPixel (raw : String) (url : String)
  | emitted (name : String) (recipients : List Nat)
  | callback (name : String)
deriving Repr, DecidableEq

/-- Session configuration (`AdPlayerConfig`), with the collaborator-owned
container/DOM handles abstracted away. -/
structure AdPlayerConfig where
  vastUrl : String
  targetBitrate : Rat := 2500
  maxWrapperDepth : Nat := 5
  skipOffset : Option JsNum := none
  skipButtonText : String := "Skip Ad"
deriving Repr, DecidableEq

/-- The orchestrator's mutable state: the `AdPlayerState` record plus the
private fields of `AdPlayer` (DOM handles become booleans; listeners are
identified by numbers). -/
structure PlayerState where
  status : PlaybackStatus
  currentTime : Rat := 0
  duration : Rat := 0
  muted : Bool := true
  volume : Rat := 1
  canSkip : Bool := false
  skipCountdown : JsNum := .val 0
  mediaFile : Option MediaFile := none
  lastError : Option AdError := none
  ads : List Ad := []
  tracker : Option TrackerState := none
  videoElement : Bool := false
  overlayElement : Bool := false
  skipButtonElement : Bool := false
  focusTrap : Bool := false
  listeners : List Nat := []
  quartilesFired : List Nat := []
deriving Repr, DecidableEq

/-- The state a fresh `AdPlayer` starts in. -/
def initialPlayerState : PlayerState :=
  { status := .idle }

/-- `AdPlayer.on`: add a listener to the observer set. -/
def PlayerState.on (st : PlayerState) (listener : Nat) : PlayerState :=
  if st.listeners.contains listener then st
  else { st with listeners := st.listeners ++ [listener] }

/-- `AdPlayer.emit`: dispatch to every currently registered listener. -/
def PlayerState.emit (st : PlayerState) (name : String) : List Effect :=
  [.emitted name st.listeners]

/-- `this.tracker?.track(eventType)` as done by the player: a missing tracker
is a silent no-op. -/
def PlayerState.trackEvent (st : PlayerState) (eventType : String) (once : Bool)
    (now rand : String) : PlayerState × List Effect :=
  match st.tracker with
  | none => (st, [])
  | some t =>
    let r := t.track eventType once now rand
    ({ st with tracker := some r.1 }, r.2.map (fun p => .trackPixel eventType p.1 p.2))

/-- First Linear payload among an ad's creatives, in document order. -/
def firstLinearOfAd (ad : Ad) : Option Linear :=
  ad.creatives.foldr (fun c a => match c.linear with | some l => some l | none => a) none

/-- `AdPlayer.getFirstLinearCreative` over an ad list. -/
def firstLinearOfAds (ads : List Ad) : Option Linear :=
  ads.foldr
    (fun ad acc =>
      match firstLinearOfAd ad with
      | some l => some l
      | none => acc)
    none

/-- `AdPlayer.handleError`: record the error state, fire the error-tracking
pixels over every error URL collected across all ads so far (a no-op while the
tracker has not been constructed), then emit and invoke the error callback. -/
def PlayerState.handleError (st : PlayerState) (err : AdError) (now rand : String) :
    PlayerState × List Effect :=
  let st' := { st with status := .error, lastError := some err }
  let errorUrls := st'.ads.foldr (fun ad acc => ad.errors ++ acc) []
  let pixels : List Effect :=
    match st'.tracker with
    | none => []
    | some t => (t.fireError errorUrls err.code now rand).map (fun p => .errorPixel p.1 p.2)
  (st', pixels ++ st'.emit "error" ++ [.callback "onError"])

/-- `AdPlayer.setupSkipButton`: resolve the skip offset (config override wins),
bail out when it is missing, `NaN`, zero or negative, else arm the countdown. -/
def PlayerState.setupSkipButton (cfg : AdPlayerConfig) (st : PlayerState) : PlayerState :=
  let linear := firstLinearOfAds st.ads
  let skipOffset : Option JsNum := cfg.skipOffset.orElse (fun _ => linear.bind (·.skipOffset))
  match skipOffset with
  | none => st
  | some .nan => st
  | some (.val q) =>
    if q ≤ 0 then st
    else { st with skipCountdown := .val q, canSkip := false, skipButtonElement := true }

/-- `AdPlayer.handlePlaybackStart`: go to `Playing`, emit `start`, invoke the
start callback, fire impression pixels, track `start` and `creativeView`, and
set up the skip button. -/
def PlayerState.handlePlaybackStart (cfg : AdPlayerConfig) (st : PlayerState)
    (now rand : String) : PlayerState × List Effect :=
  let st1 := { st with status := .playing }
  let startEffects := st1.emit "start" ++ [.callback "onStart"]
  let impressionUrls := aggregateImpressions st1.ads
  let impressionPixels : List Effect :=
    match st1.tracker with
    | none => []
    | some t => (t.fireImpressions impressionUrls now rand).map
        (fun p => .impressionPixel p.1 p.2)
  let r1 := st1.trackEvent "start" true now rand
  let r2 := r1.1.trackEvent "creativeView" true now rand
  let st4 := PlayerState.setupSkipButton cfg r2.1
  (st4, startEffects ++ impressionPixels ++ r1.2 ++ r2.2)

/-- `AdPlayer.showStartOverlay`: soft-fail branch of a rejected autoplay. -/
def PlayerState.showStartOverlay (st : PlayerState) : PlayerState :=
  { st with status := .waitingForInteraction, overlayElement := true }

/-- `AdPlayer.removeOverlay`. -/
def PlayerState.removeOverlay (st : PlayerState) : PlayerState :=
  { st with overlayElement := false }

/-- `AdPlayer.attemptAutoplay`: `accepted` is whether the host runtime resolves
the `play()` promise; a rejection shows the start overlay instead of erroring. -/
def PlayerState.attemptAutoplay (cfg : AdPlayerConfig) (st : PlayerState) (accepted : Bool)
    (now rand : String) : PlayerState × List Effect :=
  if !st.videoElement then (st, [])
  else if accepted then st.handlePlaybackStart cfg now rand
  else (st.showStartOverlay, [])

/-- `AdPlayer.onStartClick`: remove the overlay and retry `play()`; a rejection
here is a terminal error. -/
def PlayerState.onStartClick (cfg : AdPlayerConfig) (st : PlayerState) (accepted : Bool)
    (playErrMsg : String) (now rand : String) : PlayerState × List Effect :=
  let st1 := st.removeOverlay
  if st1.videoElement then
    if accepted then st1.handlePlaybackStart cfg now rand
    else st1.handleError
      { code := VASTErrorCode.GENERAL_LINEAR_ERROR
        message := "Playback failed: " ++ playErrMsg } now rand
  else (st1, [])

/-- `AdPlayer.destroy`: release every owned resource, clear the listener
registry, then emit the final `destroy` event (to the already-cleared set). -/
def PlayerState.destroy (st : PlayerState) : PlayerState × List Effect :=
  let st' := { st with
    videoElement := false
    overlayElement := false
    skipButtonElement := false
    focusTrap := false
    tracker := st.tracker.map TrackerState.reset
    quartilesFired := []
    listeners := []
    ads := [] }
  (st', st'.emit "destroy")

/-- `AdPlayer.init`: resolve the document, pick the linear creative and media
file, seed the tracker, create the playback surface, and attempt autoplay.
Every failure is routed through `handleError`. -/
def PlayerState.init (world : World) (cfg : AdPlayerConfig) (st : PlayerState)
    (autoplayAccepted : Bool) (now rand : String) : PlayerState × List Effect :=
  let st := { st with status := .loading }
  let result := VASTParser.parse world cfg.maxWrapperDepth cfg.vastUrl
  match result.success, result.response with
  | true, some response =>
    let st := { st with ads := response.ads }
    if st.ads.length = 0 then
      st.handleError
        { code := VASTErrorCode.NO_VAST_RESPONSE, message := "No ads in VAST response" }
        now rand
    else
      match firstLinearOfAds st.ads with
      | none =>
        st.handleError
          { code := VASTErrorCode.GENERAL_LINEAR_ERROR, message := "No linear creative found" }
          now rand
      | some linear =>
        match selectBestMediaFile linear.mediaFiles cfg.targetBitrate with
        | none =>
          st.handleError
            { code := VASTErrorCode.FILE_NOT_FOUND, message := "No suitable media file found" }
            now rand
        | some mediaFile =>
          let st := { st with mediaFile := some mediaFile }
          let trackingEvents := aggregateTrackingEvents st.ads
          let tracker := mkTracker trackingEvents
          let tracker := { tracker with
            macroContext := { tracker.macroContext with assetUri := some mediaFile.url } }
          let st := { st with tracker := some tracker }
          let st := { st with videoElement := true }
          let st := { st with focusTrap := true }
          st.attemptAutoplay cfg autoplayAccepted now rand
  | _, _ =>
    let code : Int :=
      match result.error with
      | some e => if e.code = 0 then VASTErrorCode.NO_VAST_RESPONSE else e.code
      | none => VASTErrorCode.NO_VAST_RESPONSE
    let message : String :=
      match result.error with
      | some e => if e.message = "" then "Failed to parse VAST" else e.message
      | none => "Failed to parse VAST"
    st.handleError { code := code, message := message } now rand

/-! ## Supporting lemmas -/

/-- `firstMinBy` picks the leftmost element of minimal score. -/
def firstMinBy (score : MediaFile → Rat) : List MediaFile → Option MediaFile
  | [] => none
  | x :: xs =>
    match firstMinBy score xs with
    | none => some x
    | some m => if score m < score x then some m else some x

theorem insertByScore_ne_nil (score : MediaFile → Rat) (x : MediaFile) (l : List MediaFile) :
    insertByScore score x l ≠ [] := by
  cases l with
  | nil => simp [insertByScore]
  | cons y ys =>
    simp only [insertByScore]
    split <;> simp

theorem sortByScore_eq_nil_iff (score : MediaFile → Rat) (l : List MediaFile) :
    sortByScore score l = [] ↔ l = [] := by
  cases l with
  | nil => simp [sortByScore]
  | cons x xs =>
    simp only [sortByScore, List.foldr]
    constructor
    · intro h
      exact absurd h (insertByScore_ne_nil _ _ _)
    · intro h
      exact absurd h (by simp)

theorem head_insertByScore (score : MediaFile → Rat) (x : MediaFile) (l : List MediaFile) :
    (insertByScore score x l).head? =
      match l.head? with
      | none => some x
      | some y => if score y < score x then some y else some x := by
  cases l with
  | nil => simp [insertByScore]
  | cons y ys =>
    by_cases h : score y < score x
    · simp [insertByScore, h]
    · simp [insertByScore, h]

/-- The head of the stable sort is the leftmost minimal-score element. -/
theorem sortByScore_head (score : MediaFile → Rat) (l : List MediaFile) :
    (sortByScore score l).head? = firstMinBy score l := by
  induction l with
  | nil => simp [sortByScore, firstMinBy]
  | cons x xs ih =>
    have hstep : sortByScore score (x :: xs) = insertByScore score x (sortByScore score xs) :=
      rfl
    rw [hstep, head_insertByScore]
    cases hxs : sortByScore score xs with
    | nil =>
      have : xs = [] := (sortByScore_eq_nil_iff score xs).mp hxs
      subst this
      simp [firstMinBy]
    | cons y ys =>
      have hy : firstMinBy score xs = some y := by
        rw [← ih, hxs]; rfl
      simp only [firstMinBy, hy, List.head?]

theorem firstMinBy_cons_isSome (score : MediaFile → Rat) (x : MediaFile) (xs : List MediaFile) :
    (firstMinBy score (x :: xs)).isSome := by
  simp only [firstMinBy]
  cases firstMinBy score xs with
  | none => simp
  | some m => by_cases h : score m < score x <;> simp [h]

theorem firstMinBy_spec (score : MediaFile → Rat) (l : List MediaFile) (hl : l ≠ []) :
    ∃ (mf : MediaFile) (i : Nat), firstMinBy score l = some mf ∧ l[i]? = some mf ∧
      (∀ (j : Nat) (y : MediaFile), l[j]? = some y → score mf ≤ score y) ∧
      (∀ (j : Nat) (y : MediaFile), j < i → l[j]? = some y → score mf < score y) := by
  induction l with
  | nil => exact absurd rfl hl
  | cons x xs ih =>
    cases hxs : firstMinBy score xs with
    | none =>
      have hnil : xs = [] := by
        cases xs with
        | nil => rfl
        | cons a as =>
          have hs := firstMinBy_cons_isSome score a as
          rw [hxs] at hs
          simp at hs
      subst hnil
      refine ⟨x, 0, by simp [firstMinBy], by simp, ?_, ?_⟩
      · intro j y hj
        cases j with
        | zero => simp at hj; subst hj; exact le_refl _
        | succ n => simp at hj
      · intro j y hj
        omega
    | some m =>
      obtain ⟨mf, i, hmf, hget, hmin, hstrict⟩ := ih (by
        intro h
        subst h
        simp [firstMinBy] at hxs)
      have hmfm : mf = m := by
        rw [hmf] at hxs
        exact Option.some.inj hxs
      subst hmfm
      by_cases hlt : score mf < score x
      · refine ⟨mf, i + 1, ?_, by simpa using hget, ?_, ?_⟩
        · simp [firstMinBy, hxs, hlt]
        · intro j y hj
          cases j with
          | zero => simp at hj; subst hj; exact le_of_lt hlt
          | succ n => exact hmin n y (by simpa using hj)
        · intro j y hji hj
          cases j with
          | zero => simp at hj; subst hj; exact hlt
          | succ n => exact hstrict n y (by omega) (by simpa using hj)
      · refine ⟨x, 0, ?_, by simp, ?_, ?_⟩
        · simp [firstMinBy, hxs, hlt]
        · intro j y hj
          cases j with
          | zero => simp at hj; subst hj; exact le_refl _
          | succ n =>
            have := hmin n y (by simpa using hj)
            have hxm : score x ≤ score mf := not_lt.mp hlt
            exact le_trans hxm this
        · intro j y hj
          omega

/-- A media file of height above 1080 scores at least 10000. -/
theorem mediaScore_tall (t : Rat) (mf : MediaFile) (h : mf.height > 1080) :
    10000 ≤ mediaScore t mf := by
  simp only [mediaScore, h, if_pos]
  have := abs_nonneg (JsNum.or0 mf.bitrate - t)
  linarith

/-- A media file of height at most 1080 scores exactly its bitrate distance. -/
theorem mediaScore_short (t : Rat) (mf : MediaFile) (h : ¬ mf.height > 1080) :
    mediaScore t mf = |JsNum.or0 mf.bitrate - t| := by
  simp [mediaScore, h]

/-- On a non-empty input, `selectBestMediaFile` is the head of the stable sort
of the considered candidates. -/
theorem selectBestMediaFile_eq_head (mediaFiles : List MediaFile) (t : Rat)
    (h : mediaFiles ≠ []) :
    selectBestMediaFile mediaFiles t =
      (sortByScore (mediaScore t) (consideredCandidates mediaFiles)).head? := by
  simp only [selectBestMediaFile, consideredCandidates]
  rw [if_neg]
  simpa using h

/-- The considered candidate list of a non-empty input is non-empty. -/
theorem consideredCandidates_ne_nil (mediaFiles : List MediaFile) (h : mediaFiles ≠ []) :
    consideredCandidates mediaFiles ≠ [] := by
  simp only [consideredCandidates]
  split
  · next hlen =>
    intro hc
    rw [hc] at hlen
    simp at hlen
  · exact h

/-- `firstLinearOfAd` commutes with mapping a function over every creative's
linear payload. -/
theorem firstLinearOfAd_map (g : Linear → Linear) (cs : List Creative) :
    (cs.map (fun c => { c with linear := c.linear.map g })).foldr
      (fun c a => match c.linear with | some l => some l | none => a) none =
    (cs.foldr (fun c a => match c.linear with | some l => some l | none => a) none).map g := by
  induction cs with
  | nil => simp
  | cons c rest ih =>
    cases hc : c.linear <;> simp [hc, ih]

/-- Left cancellation for string append. -/
theorem strAppend_cancel_left {s a b : String} (h : s ++ a = s ++ b) : a = b := by
  have hd := congrArg String.data h
  simp only [String.data_append] at hd
  have hab := List.append_cancel_left hd
  cases a
  cases b
  exact congrArg String.mk hab

/-- The fired-set key `eventType + ":" + url` determines the URL for a fixed
event type. -/
theorem eventKey_inj (e u1 u2 : String) (h : e ++ ":" ++ u1 = e ++ ":" ++ u2) : u1 = u2 :=
  strAppend_cancel_left h

theorem getKey_setKey_self (k : String) (v : List TrackingEvent)
    (m : List (String × List TrackingEvent)) : getKey k (setKey k v m) = some v := by
  induction m with
  | nil => simp [setKey, getKey]
  | cons p rest ih =>
    simp only [setKey]
    by_cases h : p.1 == k
    · simp [getKey, h]
    · simp [getKey, h, ih]

theorem getKey_setKey_other (k k' : String) (v : List TrackingEvent)
    (m : List (String × List TrackingEvent)) (h : k' ≠ k) :
    getKey k' (setKey k v m) = getKey k' m := by
  have hkk : (k == k') = false := by
    simp only [beq_eq_false_iff_ne, ne_eq]
    exact fun hk => h hk.symm
  induction m with
  | nil => simp [setKey, getKey, hkk]
  | cons p rest ih =>
    simp only [setKey]
    by_cases hp : p.1 = k
    · rw [if_pos (by simpa using hp)]
      have hpk : (p.1 == k') = false := by
        rw [hp]
        exact hkk
      simp [getKey, hkk, hpk, hp]
    · rw [if_neg (by simpa using hp)]
      by_cases hq : p.1 == k'
      · simp [getKey, hq]
      · simp [getKey, hq, ih]

/-- The grouped map's entry for a type lists exactly the events of that type,
in registration order. -/
theorem groupEventsByType_lookup (events : List TrackingEvent) (t : String) :
    (getKey t (groupEventsByType events)).getD [] =
      events.filter (fun e => e.event == t) := by
  suffices h : ∀ (m : List (String × List TrackingEvent)),
      (getKey t (events.foldl
        (fun m e => setKey e.event ((getKey e.event m).getD [] ++ [e]) m) m)).getD [] =
      (getKey t m).getD [] ++ events.filter (fun e => e.event == t) by
    simpa [groupEventsByType, getKey] using h []
  induction events with
  | nil => simp
  | cons e es ih =>
    intro m
    simp only [List.foldl_cons, List.filter_cons]
    rw [ih]
    by_cases ht : e.event = t
    · subst ht
      rw [getKey_setKey_self]
      simp [List.append_assoc]
    · rw [getKey_setKey_other _ _ _ _ (Ne.symm ht)]
      have : (e.event == t) = false := by simpa using ht
      simp [this]

/-- Count of pixel-log entries whose raw URL is `u`. -/
def countRaw (log : List (String × String)) (u : String) : Nat :=
  log.countP (fun p => p.1 == u)

/-- `track` with `once = false` bypasses the fired-set entirely: it is neither
consulted (the log does not depend on it) nor updated. -/
theorem trackAux_false (e : String) (ctx : MacroContext) (now rand : String)
    (events : List TrackingEvent) (fired : List String) :
    trackAux e ctx false now rand events fired =
      (fired, events.map (fun ev => (ev.url, replaceMacros now rand ev.url ctx))) := by
  induction events generalizing fired with
  | nil => simp [trackAux]
  | cons ev es ih => simp [trackAux, ih]

/-- After a `once = true` pass, a key is in the fired-set iff it was before or
one of the walked events carries its URL. -/
theorem trackAux_true_fired (e : String) (ctx : MacroContext) (now rand : String)
    (events : List TrackingEvent) (fired : List String) (u : String) :
    ((e ++ ":" ++ u) ∈ (trackAux e ctx true now rand events fired).1 ↔
      ((e ++ ":" ++ u) ∈ fired ∨ events.any (fun ev => ev.url == u) = true)) := by
  induction events generalizing fired with
  | nil => simp [trackAux]
  | cons ev es ih =>
    simp only [trackAux, Bool.true_and]
    by_cases hc : fired.contains (e ++ ":" ++ ev.url)
    · rw [if_pos hc]
      rw [ih]
      have hcm : (e ++ ":" ++ ev.url) ∈ fired := List.elem_iff.mp hc
      by_cases hu : ev.url = u
      · subst hu
        simp [hcm]
      · have hbe : (ev.url == u) = false := by simpa using hu
        simp [hbe]
    · rw [if_neg hc]
      simp only [if_pos rfl]
      rw [ih]
      by_cases hu : ev.url = u
      · subst hu
        simp [List.mem_append]
      · have hbe : (ev.url == u) = false := by simpa using hu
        have hkne : (e ++ ":" ++ u) ≠ (e ++ ":" ++ ev.url) := by
          intro hk
          exact hu (eventKey_inj e u ev.url hk).symm
        simp [List.mem_append, hbe, hkne]

theorem countRaw_cons (p : String × String) (l : List (String × String)) (u : String) :
    countRaw (p :: l) u = countRaw l u + (if p.1 == u then 1 else 0) := by
  simp [countRaw, List.countP_cons]

/-- Raw-URL delivery count of one `once = true` pass: one delivery per URL that
is registered among the walked events and not already fired. -/
theorem trackAux_true_count (e : String) (ctx : MacroContext) (now rand : String)
    (events : List TrackingEvent) (fired : List String) (u : String) :
    countRaw (trackAux e ctx true now rand events fired).2 u =
      (if events.any (fun ev => ev.url == u) = true ∧
          (e ++ ":" ++ u) ∉ fired then 1 else 0) := by
  induction events generalizing fired with
  | nil => simp [trackAux, countRaw]
  | cons ev es ih =>
    simp only [trackAux, Bool.true_and]
    by_cases hc : fired.contains (e ++ ":" ++ ev.url)
    · rw [if_pos hc]
      rw [ih]
      have hcm : (e ++ ":" ++ ev.url) ∈ fired := List.elem_iff.mp hc
      by_cases hu : ev.url = u
      · subst hu
        simp [hcm]
      · have hbe : (ev.url == u) = false := by simpa using hu
        simp [hbe]
    · rw [if_neg hc]
      simp only [if_true]
      have hcm : (e ++ ":" ++ ev.url) ∉ fired := fun hm => hc (List.elem_iff.mpr hm)
      have hrest := ih (fired ++ [e ++ ":" ++ ev.url])
      by_cases hu : ev.url = u
      · subst hu
        rw [countRaw_cons, hrest, if_neg (by simp [List.mem_append])]
        simp [hcm]
      · have hbe : (ev.url == u) = false := by simpa using hu
        have hkne : (e ++ ":" ++ u) ≠ (e ++ ":" ++ ev.url) := by
          intro hk
          exact hu (eventKey_inj e u ev.url hk).symm
        rw [countRaw_cons, hrest]
        have hmem : ((e ++ ":" ++ u) ∈ fired ++ [e ++ ":" ++ ev.url]) ↔
            (e ++ ":" ++ u) ∈ fired := by
          simp [List.mem_append, hkne]
        have hiff : ((es.any fun x => x.url == u) = true ∧
              (e ++ ":" ++ u) ∉ fired ++ [e ++ ":" ++ ev.url]) ↔
            (((ev :: es).any fun x => x.url == u) = true ∧ (e ++ ":" ++ u) ∉ fired) := by
          simp [List.any_cons, hbe, hmem]
        simp only [hiff, hbe, Bool.false_eq_true, if_false, add_zero]

/-- Full characterization of one `track(e, once = true)` call: per-URL delivery
count, fired-set evolution, and untouched registration map and context. -/
theorem track_true_spec (st : TrackerState) (e : String) (now rand : String) (u : String) :
    countRaw ((st.track e true now rand).2) u =
      (if ((getKey e st.trackingEvents).getD []).any (fun ev => ev.url == u) = true ∧
          (e ++ ":" ++ u) ∉ st.firedEvents then 1 else 0) ∧
    ((e ++ ":" ++ u) ∈ (st.track e true now rand).1.firedEvents ↔
      ((e ++ ":" ++ u) ∈ st.firedEvents ∨
        ((getKey e st.trackingEvents).getD []).any (fun ev => ev.url == u) = true)) ∧
    (st.track e true now rand).1.trackingEvents = st.trackingEvents ∧
    (st.track e true now rand).1.macroContext = st.macroContext := by
  unfold TrackerState.track
  cases hg : getKey e st.trackingEvents with
  | none => simp [countRaw]
  | some l =>
    refine ⟨?_, ?_, rfl, rfl⟩
    · simpa using trackAux_true_count e st.macroContext now rand l st.firedEvents u
    · simpa using trackAux_true_fired e st.macroContext now rand l st.firedEvents u

/-- One `track(e, once = false)` call: the state (including the fired-set) is
untouched and every registered endpoint is delivered. -/
theorem track_false_spec (st : TrackerState) (e now rand : String) :
    st.track e false now rand =
      (st, ((getKey e st.trackingEvents).getD []).map
        (fun ev => (ev.url, replaceMacros now rand ev.url st.macroContext))) := by
  unfold TrackerState.track
  cases hg : getKey e st.trackingEvents with
  | none => simp
  | some l => simp [trackAux_false]

/-- `u` appears among the endpoints registered for event type `e`. -/
def registeredFor (events : List TrackingEvent) (e u : String) : Bool :=
  (events.filter (fun ev => ev.event == e)).any (fun ev => ev.url == u)

/-- Replacing a pattern that does not occur leaves the text unchanged. -/
theorem replaceAllFuel_not_occur (pat repl : List Char) (fuel : Nat) (l : List Char)
    (h : hasSubList pat l = false) :
    replaceAllFuel pat repl fuel l = l := by
  induction fuel generalizing l with
  | zero => cases l <;> rfl
  | succ n ih =>
    cases l with
    | nil => rfl
    | cons c cs =>
      simp only [hasSubList, Bool.or_eq_false_iff] at h
      rw [replaceAllFuel, if_neg (by simp [h.1]), ih cs h.2]

/-- Replacing a pattern that does not occur leaves the text unchanged. -/
theorem replaceAllL_not_occur (pat repl l : List Char) (h : hasSubList pat l = false) :
    replaceAllL pat repl l = l :=
  replaceAllFuel_not_occur pat repl l.length l h

/-- String-level version of `replaceAllL_not_occur`. -/
theorem strReplaceAll_not_occur (s pat repl : String) (h : strIncludes s pat = false) :
    strReplaceAll s pat repl = s := by
  unfold strReplaceAll
  rw [replaceAllL_not_occur _ _ _ h]
  cases s
  rfl

/-- The wrapper-limit error message thrown by `fetchAndParse`. -/
def wrapperLimitMsg (maxWrapperDepth : Nat) : String :=
  "Wrapper limit exceeded (max: " ++ toString maxWrapperDepth ++ ")"

/-- A wrapper-only ad pointing at `target`. -/
def chainWrapperAd (target : String) : Ad :=
  { wrapper := some { vastAdTagURI := target } }

/-- A bare inline ad terminating a wrapper chain. -/
def c2InlineAd : Ad := { id := "inline" }

/-- A successful response whose single ad wraps `target`. -/
def chainDoc (target : String) : FetchOutcome :=
  .response 200 "OK" (some { ads := [chainWrapperAd target] })

/-- A successful response with the single inline ad. -/
def inlineDoc : FetchOutcome :=
  .response 200 "OK" (some { ads := [c2InlineAd] })

/-- The depth bound is enforced at entry, before any fetch: for every world. -/
theorem fetchAndParse_depth_guard (world : World) (maxWrapperDepth : Nat) (url : String)
    (depth : Nat) (h : maxWrapperDepth ≤ depth) :
    fetchAndParse world maxWrapperDepth url depth = .error (wrapperLimitMsg maxWrapperDepth) := by
  unfold fetchAndParse
  rw [dif_pos h]
  rfl

theorem resolveAdList_nil (world : World) (maxWrapperDepth depth : Nat) :
    resolveAdList world maxWrapperDepth [] depth = .ok [] := by
  unfold resolveAdList
  rfl

theorem resolveAdList_single (world : World) (maxWrapperDepth : Nat) (ad : Ad) (depth : Nat) :
    resolveAdList world maxWrapperDepth [ad] depth =
      match (if hasWrapperTag ad then resolveWrapper world maxWrapperDepth ad depth
             else .ok [ad]) with
      | .error msg => .error msg
      | .ok resolved => .ok [resolved] := by
  unfold resolveAdList
  cases hh : (if hasWrapperTag ad then resolveWrapper world maxWrapperDepth ad depth
      else Except.ok [ad]) with
  | error m => simp [hh]
  | ok l => simp [hh, resolveAdList_nil]

/-- One unfolding of `fetchAndParse` below the depth bound with a good fetch
and parse. -/
theorem fetchAndParse_step (world : World) (maxWrapperDepth : Nat) (url : String)
    (depth : Nat) (h : ¬ maxWrapperDepth ≤ depth) (body : Option RawVast)
    (hfetch : fetchWithTimeout world url = .ok body) (parsed : VASTResponse)
    (hparse : parseXml body = .ok parsed) :
    fetchAndParse world maxWrapperDepth url depth =
      match resolveAdList world maxWrapperDepth parsed.ads (depth + 1) with
      | .error msg => .error msg
      | .ok adLists => .ok { parsed with ads := adLists.flatten } := by
  unfold fetchAndParse
  rw [dif_neg h]
  simp only [hfetch, hparse]

theorem fetchWithTimeout_chainDoc (world : World) (url target : String)
    (h : world url = chainDoc target) :
    fetchWithTimeout world url = .ok (some { ads := [chainWrapperAd target] }) := by
  unfold fetchWithTimeout
  rw [h]
  simp [chainDoc]

theorem fetchWithTimeout_inlineDoc (world : World) (url : String)
    (h : world url = inlineDoc) :
    fetchWithTimeout world url = .ok (some { ads := [c2InlineAd] }) := by
  unfold fetchWithTimeout
  rw [h]
  simp [inlineDoc]

theorem hasWrapperTag_chain (target : String) (h : target ≠ "") :
    hasWrapperTag (chainWrapperAd target) = true := by
  simp only [hasWrapperTag, chainWrapperAd]
  simpa using h

/-- Along a pure wrapper chain of length `maxWrapperDepth`, resolution fails
with the wrapper-limit message from every link onward. -/
theorem chain_fail (maxWrapperDepth : Nat) (world : World) (us : Nat → String)
    (hne : ∀ i, us i ≠ "")
    (hwrap : ∀ i, i < maxWrapperDepth → world (us i) = chainDoc (us (i + 1))) :
    ∀ n i, i ≤ maxWrapperDepth → maxWrapperDepth - i = n →
      fetchAndParse world maxWrapperDepth (us i) i =
        .error (wrapperLimitMsg maxWrapperDepth) := by
  intro n
  induction n with
  | zero =>
    intro i hle hz
    have hi : i = maxWrapperDepth := by omega
    subst hi
    exact fetchAndParse_depth_guard world _ _ _ (le_refl _)
  | succ k ih =>
    intro i hle hk
    have hi : i < maxWrapperDepth := by omega
    have hrec := ih (i + 1) (by omega) (by omega)
    have hrw : resolveWrapper world maxWrapperDepth (chainWrapperAd (us (i + 1))) (i + 1) =
        .error (wrapperLimitMsg maxWrapperDepth) := by
      unfold resolveWrapper
      simp only [chainWrapperAd]
      rw [if_neg (hne (i + 1))]
      simp [hrec]
    have hral : resolveAdList world maxWrapperDepth [chainWrapperAd (us (i + 1))] (i + 1) =
        .error (wrapperLimitMsg maxWrapperDepth) := by
      rw [resolveAdList_single]
      rw [if_pos (by rw [hasWrapperTag_chain _ (hne (i + 1))])]
      simp only [hrw]
    rw [fetchAndParse_step world maxWrapperDepth (us i) i (by omega)
      (some { ads := [chainWrapperAd (us (i + 1))] })
      (fetchWithTimeout_chainDoc world _ _ (hwrap i hi))
      { version := "4.0", ads := [chainWrapperAd (us (i + 1))], errors := [] } rfl]
    simp only [hral]

/-- Along a wrapper chain one shorter than the bound, resolution succeeds from
every link onward. -/
theorem chain_success (maxWrapperDepth : Nat) (world : World) (us : Nat → String)
    (hpos : 1 ≤ maxWrapperDepth)
    (hne : ∀ i, us i ≠ "")
    (hwrap : ∀ i, i < maxWrapperDepth - 1 → world (us i) = chainDoc (us (i + 1)))
    (hinline : world (us (maxWrapperDepth - 1)) = inlineDoc) :
    ∀ n i, i ≤ maxWrapperDepth - 1 → (maxWrapperDepth - 1) - i = n →
      ∃ r, fetchAndParse world maxWrapperDepth (us i) i = .ok r := by
  intro n
  induction n with
  | zero =>
    intro i hle hz
    have hi : i = maxWrapperDepth - 1 := by omega
    subst hi
    have hral : resolveAdList world maxWrapperDepth [c2InlineAd] (maxWrapperDepth - 1 + 1) =
        .ok [[c2InlineAd]] := by
      rw [resolveAdList_single]
      rw [if_neg (by simp [hasWrapperTag, c2InlineAd])]
    refine ⟨{ version := "4.0", ads := [c2InlineAd], errors := [] }, ?_⟩
    rw [fetchAndParse_step world maxWrapperDepth _ _ (by omega)
      (some { ads := [c2InlineAd] })
      (fetchWithTimeout_inlineDoc world _ hinline)
      { version := "4.0", ads := [c2InlineAd], errors := [] } rfl]
    simp [hral]
  | succ k ih =>
    intro i hle hk
    have hi : i < maxWrapperDepth - 1 := by omega
    obtain ⟨r, hrec⟩ := ih (i + 1) (by omega) (by omega)
    have hrw : resolveWrapper world maxWrapperDepth (chainWrapperAd (us (i + 1))) (i + 1) =
        .ok (r.ads.map (mergeWrapperTracking (chainWrapperAd (us (i + 1))))) := by
      unfold resolveWrapper
      simp only [chainWrapperAd]
      rw [if_neg (hne (i + 1))]
      simp only [hrec]
    have hral : resolveAdList world maxWrapperDepth [chainWrapperAd (us (i + 1))] (i + 1) =
        .ok [r.ads.map (mergeWrapperTracking (chainWrapperAd (us (i + 1))))] := by
      rw [resolveAdList_single]
      rw [if_pos (by rw [hasWrapperTag_chain _ (hne (i + 1))])]
      simp only [hrw]
    refine ⟨{ version := "4.0"
              ads := r.ads.map (mergeWrapperTracking (chainWrapperAd (us (i + 1))))
              errors := [] }, ?_⟩
    rw [fetchAndParse_step world maxWrapperDepth (us i) i (by omega)
      (some { ads := [chainWrapperAd (us (i + 1))] })
      (fetchWithTimeout_chainDoc world _ _ (hwrap i hi))
      { version := "4.0", ads := [chainWrapperAd (us (i + 1))], errors := [] } rfl]
    simp [hral]

/-! ## Claim theorems -/

/-- C1: on a dispatcher built from a fixed tracking-event list, two
`track(e, once=true)` calls deliver each URL registered for `e` exactly once;
two `track(e, once=false)` calls deliver each registered URL once per call
(twice in total), neither consulting nor updating the fired-set; and after
`reset()` a further `track(e, once=true)` delivers each registered URL again. -/
theorem C1_track_dedup_replay (events : List TrackingEvent) (e u : String)
    (n1 r1 n2 r2 n3 r3 : String) (f : List String) :
    (let st0 := mkTracker events
     let c1 := st0.track e true n1 r1
     let c2 := c1.1.track e true n2 r2
     let c3 := (c2.1.reset).track e true n3 r3
     (countRaw (c1.2 ++ c2.2) u = if registeredFor events e u then 1 else 0) ∧
     countRaw c3.2 u = if registeredFor events e u then 1 else 0) ∧
    (let stf := { mkTracker events with firedEvents := f }
     let d1 := stf.track e false n1 r1
     let d2 := d1.1.track e false n2 r2
     d1.1.firedEvents = f ∧ d2.1.firedEvents = f ∧
     d1.2 = ((mkTracker events).track e false n1 r1).2 ∧
     countRaw (d1.2 ++ d2.2) u =
       2 * ((events.filter (fun ev => ev.event == e)).countP (fun ev => ev.url == u))) := by
  have hlook : (getKey e (mkTracker events).trackingEvents).getD [] =
      events.filter (fun ev => ev.event == e) :=
    groupEventsByType_lookup events e
  have hreg : registeredFor events e u =
      ((getKey e (mkTracker events).trackingEvents).getD []).any (fun ev => ev.url == u) := by
    rw [hlook]
    rfl
  constructor
  · set st0 := mkTracker events with hst0
    obtain ⟨hcnt1, hfired1, hmap1, hctx1⟩ := track_true_spec st0 e n1 r1 u
    set c1 := st0.track e true n1 r1 with hc1
    obtain ⟨hcnt2, _hfired2, hmap2, hctx2⟩ := track_true_spec c1.1 e n2 r2 u
    set c2 := c1.1.track e true n2 r2 with hc2
    have hfired0 : st0.firedEvents = [] := rfl
    have hcnt12 : countRaw (c1.2 ++ c2.2) u =
        (if registeredFor events e u then 1 else 0) := by
      rw [show countRaw (c1.2 ++ c2.2) u = countRaw c1.2 u + countRaw c2.2 u from by
        simp [countRaw, List.countP_append]]
      rw [hcnt1, hcnt2, hmap1]
      by_cases hr : ((getKey e st0.trackingEvents).getD []).any (fun ev => ev.url == u) = true
      · rw [if_pos ⟨hr, by simp [hfired0]⟩,
          if_neg (by
            rintro ⟨_, hnot⟩
            exact hnot (hfired1.mpr (Or.inr hr)))]
        rw [hreg, hr]
        rfl
      · rw [if_neg (fun hcon => hr hcon.1), if_neg (fun hcon => hr hcon.1)]
        rw [hreg]
        simp only [Bool.not_eq_true] at hr
        rw [hr]
        rfl
    refine ⟨hcnt12, ?_⟩
    obtain ⟨hcnt3, _, _, _⟩ := track_true_spec c2.1.reset e n3 r3 u
    have hmapr : c2.1.reset.trackingEvents = st0.trackingEvents := by
      simp [TrackerState.reset, hmap2, hmap1]
    have hfiredr : c2.1.reset.firedEvents = [] := rfl
    rw [hcnt3, hmapr, hfiredr]
    by_cases hr : ((getKey e st0.trackingEvents).getD []).any (fun ev => ev.url == u) = true
    · rw [if_pos ⟨hr, by simp⟩, hreg, hr]
      rfl
    · rw [if_neg (fun hcon => hr hcon.1), hreg]
      simp only [Bool.not_eq_true] at hr
      rw [hr]
      rfl
  · set stf : TrackerState := { mkTracker events with firedEvents := f } with hstf
    have h1 := track_false_spec stf e n1 r1
    have hmapf : stf.trackingEvents = (mkTracker events).trackingEvents := rfl
    have h2 := track_false_spec ((stf.track e false n1 r1).1) e n2 r2
    have h0 := track_false_spec (mkTracker events) e n1 r1
    have hfst : (stf.track e false n1 r1).1 = stf := by rw [h1]
    have h2' := track_false_spec stf e n2 r2
    refine ⟨by rw [h1], by rw [h2, h1], ?_, ?_⟩
    · rw [h1, h0]
    · rw [hfst, h1, h2']
      dsimp only
      have hm : ∀ (now rand : String),
          countRaw (((getKey e stf.trackingEvents).getD []).map
            (fun ev => (ev.url, replaceMacros now rand ev.url stf.macroContext))) u =
          (events.filter (fun ev => ev.event == e)).countP (fun ev => ev.url == u) := by
        intro now rand
        rw [show stf.trackingEvents = (mkTracker events).trackingEvents from rfl, hlook]
        simp only [countRaw, List.countP_map]
        rfl
      rw [show countRaw
          ((((getKey e stf.trackingEvents).getD []).map
            (fun ev => (ev.url, replaceMacros n1 r1 ev.url stf.macroContext))) ++
          (((getKey e stf.trackingEvents).getD []).map
            (fun ev => (ev.url, replaceMacros n2 r2 ev.url stf.macroContext)))) u
          = countRaw (((getKey e stf.trackingEvents).getD []).map
            (fun ev => (ev.url, replaceMacros n1 r1 ev.url stf.macroContext))) u +
            countRaw (((getKey e stf.trackingEvents).getD []).map
            (fun ev => (ev.url, replaceMacros n2 r2 ev.url stf.macroContext))) u from by
        simp [countRaw, List.countP_append]]
      rw [hm, hm]
      ring

/-- C9: `destroy()` clears the listener registry before emitting the final
destroy event, so a listener registered via `on()` and still subscribed when
`destroy()` is called never observes the destroy event. -/
theorem C9_destroy_clears_listeners_before_emit (st : PlayerState) (listener : Nat) :
    (((st.on listener).destroy).fst.listeners = []) ∧
    ((st.on listener).destroy).snd = [Effect.emitted "destroy" []] ∧
    ∀ recipients, Effect.emitted "destroy" recipients ∈ ((st.on listener).destroy).snd →
      listener ∉ recipients := by
  refine ⟨rfl, rfl, ?_⟩
  intro recipients hr
  have h2 : Effect.emitted "destroy" recipients = Effect.emitted "destroy" [] := by
    simpa [PlayerState.destroy, PlayerState.emit] using hr
  have : recipients = [] := by
    cases h2
    rfl
  simp [this]

/-- C10: every failure of the Resolver's public `parse` — timeout/abort, HTTP
non-2xx, malformed XML / missing root, wrapper-limit exceeded — carries error
code 300 (`GENERAL_WRAPPER_ERROR`); causes differ only in the message. -/
theorem C10_parse_failures_all_code_300 (world : World) (maxWrapperDepth : Nat)
    (vastUrl : String) :
    (VASTParser.parse world maxWrapperDepth vastUrl).success = false →
    ∃ msg, (VASTParser.parse world maxWrapperDepth vastUrl).error =
      some { code := VASTErrorCode.GENERAL_WRAPPER_ERROR, message := msg } := by
  intro h
  unfold VASTParser.parse at h ⊢
  cases hf : fetchAndParse world maxWrapperDepth vastUrl 0 with
  | ok r => rw [hf] at h; simp at h
  | error msg => exact ⟨msg, rfl⟩

/-- A world whose responses never contain a `VAST` root element. -/
def worldNoVastRoot : World := fun _ => .response 200 "OK" none

theorem C10_parse_failures_all_code_300_witness :
    (VASTParser.parse worldNoVastRoot 5 "https://ads.example/vast.xml").success = false ∧
    ∃ msg, (VASTParser.parse worldNoVastRoot 5 "https://ads.example/vast.xml").error =
      some { code := VASTErrorCode.GENERAL_WRAPPER_ERROR, message := msg } := by
  have hs : VASTParser.parse worldNoVastRoot 5 "https://ads.example/vast.xml" =
      { success := false
        response := none
        error := some { code := VASTErrorCode.GENERAL_WRAPPER_ERROR
                        message := "Invalid VAST: missing VAST element" } } := by
    unfold VASTParser.parse
    unfold fetchAndParse
    simp [fetchWithTimeout, worldNoVastRoot, parseXml]
  exact ⟨by rw [hs], C10_parse_failures_all_code_300 _ _ _ (by rw [hs])⟩

/-- C4: on successful resolution of a wrapper ad, every ad of the nested
document gets the wrapper's impressions and errors prepended, and the
wrapper's aggregated Linear tracking events prepended to its first Linear's
tracking events, preserving both sides' original entries. -/
theorem C4_wrapper_merge (wrapper nested : Ad) :
    (mergeWrapperTracking wrapper nested).impressions =
      wrapper.impressions ++ nested.impressions ∧
    (mergeWrapperTracking wrapper nested).errors = wrapper.errors ++ nested.errors ∧
    firstLinearOfAd (mergeWrapperTracking wrapper nested) =
      (firstLinearOfAd nested).map (fun l =>
        { l with trackingEvents := getWrapperTrackingEvents wrapper ++ l.trackingEvents }) ∧
    (∀ (world : World) (maxWrapperDepth depth : Nat) (w : Wrapper) (resp : VASTResponse),
      wrapper.wrapper = some w →
      w.vastAdTagURI ≠ "" →
      fetchAndParse world maxWrapperDepth w.vastAdTagURI depth = .ok resp →
      resolveWrapper world maxWrapperDepth wrapper depth =
        .ok (resp.ads.map (mergeWrapperTracking wrapper))) := by
  refine ⟨rfl, rfl, ?_, ?_⟩
  · simp only [mergeWrapperTracking, firstLinearOfAd]
    exact firstLinearOfAd_map _ nested.creatives
  · intro world maxD depth w resp hw huri hfetch
    unfold resolveWrapper
    rw [hw]
    simp [huri, hfetch]

/-- A wrapper ad with its own impression, error and Linear tracking data. -/
def c4WrapperAd : Ad :=
  { id := "w"
    impressions := ["http://imp.example/w"]
    errors := ["http://err.example/w"]
    creatives := [{ linear := some { duration := .val 0
                                     trackingEvents := [{ event := "start", url := "http://t.example/w" }] } }]
    wrapper := some { vastAdTagURI := "https://ads.example/nested.xml" } }

/-- The inline ad served by the nested document. -/
def c4NestedAd : Ad :=
  { id := "n"
    impressions := ["http://imp.example/n"]
    errors := ["http://err.example/n"]
    creatives := [{ linear := some { duration := .val 30
                                     trackingEvents := [{ event := "start", url := "http://t.example/n" }] } }] }

/-- A world serving the nested inline document for every URL. -/
def c4World : World := fun _ => .response 200 "OK" (some { ads := [c4NestedAd] })

theorem C4_wrapper_merge_witness :
    c4WrapperAd.wrapper = some { vastAdTagURI := "https://ads.example/nested.xml" } ∧
    fetchAndParse c4World 5 "https://ads.example/nested.xml" 1 =
      .ok { version := "4.0", ads := [c4NestedAd], errors := [] } ∧
    resolveWrapper c4World 5 c4WrapperAd 1 =
      .ok [mergeWrapperTracking c4WrapperAd c4NestedAd] := by
  have hnil : resolveAdList c4World 5 ([] : List Ad) 2 = .ok [] := by
    unfold resolveAdList
    rfl
  have hone : resolveAdList c4World 5 [c4NestedAd] 2 = .ok [[c4NestedAd]] := by
    unfold resolveAdList
    simp [hasWrapperTag, c4NestedAd, hnil]
  have hfetch : fetchAndParse c4World 5 "https://ads.example/nested.xml" 1 =
      .ok { version := "4.0", ads := [c4NestedAd], errors := [] } := by
    unfold fetchAndParse
    simp [fetchWithTimeout, c4World, parseXml, hone]
  refine ⟨rfl, hfetch, ?_⟩
  have h := (C4_wrapper_merge c4WrapperAd c4NestedAd).2.2.2 c4World 5 1
    { vastAdTagURI := "https://ads.example/nested.xml" }
    { version := "4.0", ads := [c4NestedAd], errors := [] }
    rfl (by decide) hfetch
  simpa using h

/-- The 1080p candidate whose bitrate is far from the target. -/
def cexMedia1080 : MediaFile :=
  { url := "https://cdn.example/a.mp4", type := "video/mp4", width := 1920, height := 1080
    bitrate := some (.val 20000) }

/-- The 4K candidate whose bitrate matches the target exactly. -/
def cexMedia2160 : MediaFile :=
  { url := "https://cdn.example/b.mp4", type := "video/mp4", width := 3840, height := 2160
    bitrate := some (.val 2500) }

/-- C3 counterexample: with the default target 2500, a 1080p file at
20000 kbps loses to a 4K file at 2500 kbps (17500 vs 10000 score), so
`selectBestMediaFile` does not always return a ≤1080 file when one exists. -/
theorem C3_counterexample_tall_wins :
    cexMedia1080.height ≤ 1080 ∧ cexMedia2160.height > 1080 ∧
    consideredCandidates [cexMedia1080, cexMedia2160] = [cexMedia1080, cexMedia2160] ∧
    selectBestMediaFile [cexMedia1080, cexMedia2160] 2500 = some cexMedia2160 := by
  refine ⟨by decide, by decide, ?_, ?_⟩
  · simp [consideredCandidates, cexMedia1080, cexMedia2160, strIncludes, hasSubList, leadsWith]
  · have h1 : mediaScore 2500 cexMedia1080 = 17500 := by
      simp [mediaScore, cexMedia1080, JsNum.or0]
      norm_num [abs_of_nonneg]
    have h2 : mediaScore 2500 cexMedia2160 = 10000 := by
      simp [mediaScore, cexMedia2160, JsNum.or0]
    have hc : consideredCandidates [cexMedia1080, cexMedia2160] =
        [cexMedia1080, cexMedia2160] := by
      simp [consideredCandidates, cexMedia1080, cexMedia2160, strIncludes, hasSubList, leadsWith]
    rw [selectBestMediaFile_eq_head _ _ (by simp), hc, sortByScore_head]
    simp only [firstMinBy, h1, h2]
    norm_num

/-- C3 (amended): `selectBestMediaFile` returns the considered candidate
minimizing `abs(bitrate_or_0 - target) + (height > 1080 ? 10000 : 0)`, ties
broken by original order; consequently it returns a file of height ≤ 1080
whenever some considered candidate of height ≤ 1080 has a raw bitrate within
10000 of the target — but not for every target, since a ≤1080 file whose
bitrate distance exceeds the 10000 penalty can lose to a taller file. -/
theorem C3_selectBestMediaFile_scoring (mediaFiles : List MediaFile) (t : Rat)
    (hne : mediaFiles ≠ []) :
    ∃ (mf : MediaFile) (i : Nat),
      selectBestMediaFile mediaFiles t = some mf ∧
      (consideredCandidates mediaFiles)[i]? = some mf ∧
      (∀ (j : Nat) (y : MediaFile), (consideredCandidates mediaFiles)[j]? = some y →
        mediaScore t mf ≤ mediaScore t y) ∧
      (∀ (j : Nat) (y : MediaFile), j < i → (consideredCandidates mediaFiles)[j]? = some y →
        mediaScore t mf < mediaScore t y) ∧
      ((∃ (k : Nat) (y : MediaFile), (consideredCandidates mediaFiles)[k]? = some y ∧
          y.height ≤ 1080 ∧ |JsNum.or0 y.bitrate - t| < 10000) → mf.height ≤ 1080) := by
  obtain ⟨mf, i, hmin, hget, hle, hstrict⟩ :=
    firstMinBy_spec (mediaScore t) (consideredCandidates mediaFiles)
      (consideredCandidates_ne_nil mediaFiles hne)
  refine ⟨mf, i, ?_, hget, hle, hstrict, ?_⟩
  · rw [selectBestMediaFile_eq_head _ _ hne, sortByScore_head, hmin]
  · rintro ⟨k, y, hky, hyh, hyd⟩
    by_contra htall
    push_neg at htall
    have h1 : 10000 ≤ mediaScore t mf := mediaScore_tall t mf htall
    have h2 : mediaScore t mf ≤ mediaScore t y := hle k y hky
    have h3 : mediaScore t y = |JsNum.or0 y.bitrate - t| :=
      mediaScore_short t y (by omega)
    rw [h3] at h2
    linarith

theorem C3_selectBestMediaFile_scoring_witness :
    ([cexMedia1080, cexMedia2160] : List MediaFile) ≠ [] ∧
    ∃ (mf : MediaFile) (i : Nat),
      selectBestMediaFile [cexMedia1080, cexMedia2160] 2500 = some mf ∧
      (consideredCandidates [cexMedia1080, cexMedia2160])[i]? = some mf ∧
      (∀ (j : Nat) (y : MediaFile),
        (consideredCandidates [cexMedia1080, cexMedia2160])[j]? = some y →
        mediaScore 2500 mf ≤ mediaScore 2500 y) ∧
      (∀ (j : Nat) (y : MediaFile), j < i →
        (consideredCandidates [cexMedia1080, cexMedia2160])[j]? = some y →
        mediaScore 2500 mf < mediaScore 2500 y) ∧
      ((∃ (k : Nat) (y : MediaFile),
          (consideredCandidates [cexMedia1080, cexMedia2160])[k]? = some y ∧
          y.height ≤ 1080 ∧ |JsNum.or0 y.bitrate - 2500| < 10000) → mf.height ≤ 1080) :=
  ⟨by simp, C3_selectBestMediaFile_scoring [cexMedia1080, cexMedia2160] 2500 (by simp)⟩

/-- C2: the depth bound is checked at entry of each recursive fetch — depth ≥
maxWrapperDepth fails immediately, for every world, before fetching; a chain
of exactly maxWrapperDepth nested wrappers fails the whole resolution with the
wrapper-limit error (surfaced as code 300), and a chain of
maxWrapperDepth - 1 wrappers succeeds. -/
theorem C2_wrapper_depth_policy (maxWrapperDepth : Nat) (world_fail world_ok : World)
    (us : Nat → String)
    (hpos : 1 ≤ maxWrapperDepth)
    (hne : ∀ i, us i ≠ "")
    (hfail_wrap : ∀ i, i < maxWrapperDepth → world_fail (us i) = chainDoc (us (i + 1)))
    (hok_wrap : ∀ i, i < maxWrapperDepth - 1 → world_ok (us i) = chainDoc (us (i + 1)))
    (hok_inline : world_ok (us (maxWrapperDepth - 1)) = inlineDoc) :
    (∀ (world : World) (url : String) (depth : Nat), maxWrapperDepth ≤ depth →
      fetchAndParse world maxWrapperDepth url depth =
        .error (wrapperLimitMsg maxWrapperDepth)) ∧
    VASTParser.parse world_fail maxWrapperDepth (us 0) =
      { success := false
        response := none
        error := some { code := VASTErrorCode.GENERAL_WRAPPER_ERROR
                        message := wrapperLimitMsg maxWrapperDepth } } ∧
    (VASTParser.parse world_ok maxWrapperDepth (us 0)).success = true := by
  refine ⟨fun world url depth h => fetchAndParse_depth_guard world _ url depth h, ?_, ?_⟩
  · have hf := chain_fail maxWrapperDepth world_fail us hne hfail_wrap
      maxWrapperDepth 0 (by omega) (by omega)
    unfold VASTParser.parse
    rw [hf]
  · obtain ⟨r, hr⟩ := chain_success maxWrapperDepth world_ok us hpos hne hok_wrap hok_inline
      (maxWrapperDepth - 1) 0 (by omega) (by omega)
    unfold VASTParser.parse
    rw [hr]

/-- The chain URLs used by the C2 witness. -/
def c2Us : Nat → String := fun i => "u" ++ toString i

/-- A world with wrappers at `u0` and `u1`: a chain of exactly 2 wrappers. -/
def c2WorldFail : World := fun url =>
  if url = "u0" then chainDoc "u1"
  else if url = "u1" then chainDoc "u2"
  else .netError "unused"

/-- A world with a wrapper at `u0` and the inline document at `u1`: a chain of
1 wrapper under a bound of 2. -/
def c2WorldOk : World := fun url =>
  if url = "u0" then chainDoc "u1"
  else if url = "u1" then inlineDoc
  else .netError "unused"

theorem C2_wrapper_depth_policy_witness :
    c2WorldFail (c2Us 0) = chainDoc (c2Us 1) ∧
    c2WorldOk (c2Us 1) = inlineDoc ∧
    VASTParser.parse c2WorldFail 2 (c2Us 0) =
      { success := false
        response := none
        error := some { code := VASTErrorCode.GENERAL_WRAPPER_ERROR
                        message := wrapperLimitMsg 2 } } ∧
    (VASTParser.parse c2WorldOk 2 (c2Us 0)).success = true := by
  have hne : ∀ i, c2Us i ≠ "" := by
    intro i h
    have hd := congrArg String.data h
    simp [c2Us, String.data_append] at hd
  have hfail_wrap : ∀ i, i < 2 → c2WorldFail (c2Us i) = chainDoc (c2Us (i + 1)) := by
    intro i hi
    interval_cases i <;> decide
  have hok_wrap : ∀ i, i < 2 - 1 → c2WorldOk (c2Us i) = chainDoc (c2Us (i + 1)) := by
    intro i hi
    interval_cases i <;> decide
  have hok_inline : c2WorldOk (c2Us (2 - 1)) = inlineDoc := by decide
  have h := C2_wrapper_depth_policy 2 c2WorldFail c2WorldOk c2Us (by omega) hne
    hfail_wrap hok_wrap hok_inline
  exact ⟨hfail_wrap 0 (by omega), hok_inline, h.2.1, h.2.2⟩

/-- C6 counterexample: `"abc%"` is unparseable, yet `parseDuration` returns
`NaN` rather than the claimed `0` (the `%` branch lacks the `|| 0` guard). -/
theorem C6_counterexample_percent_nan :
    parseDuration "abc%" = JsNum.nan ∧ JsNum.nan ≠ JsNum.val 0 :=
  ⟨rfl, by simp⟩

/-- C6 (amended): `parseDuration` maps `"00:00:30"` to 30, `"01:30:45"` to
5445, `"00:00:30.500"` to 30.5, and a trailing-`%` expression to the bare
fraction (`"50%"` to 0.5, unscaled); an unparseable input yields 0 — except
that an input ending in `%` whose body has no numeric prefix yields `NaN`. -/
theorem C6_parseTimeExpression (s : String) :
    parseDuration "00:00:30" = JsNum.val 30 ∧
    parseDuration "01:30:45" = JsNum.val 5445 ∧
    parseDuration "00:00:30.500" = JsNum.val ((61 : Rat) / 2) ∧
    parseDuration "50%" = JsNum.val ((1 : Rat) / 2) ∧
    (strEndsWith s "%" = false → findTimecode s.toList = none →
      parseFloat s = JsNum.nan → parseDuration s = JsNum.val 0) ∧
    (strEndsWith s "%" = true → parseFloat s = JsNum.nan →
      parseDuration s = JsNum.nan) := by
  refine ⟨?_, ?_, ?_, ?_, ?_, ?_⟩
  · have h : parseDuration "00:00:30" =
        JsNum.val (((0 : Nat) : Rat) * 3600 + ((0 : Nat) : Rat) * 60 + ((30 : Nat) : Rat)) :=
      rfl
    rw [h]; norm_num
  · have h : parseDuration "01:30:45" =
        JsNum.val (((1 : Nat) : Rat) * 3600 + ((30 : Nat) : Rat) * 60 + ((45 : Nat) : Rat)) :=
      rfl
    rw [h]; norm_num
  · have h : parseDuration "00:00:30.500" =
        JsNum.val (((0 : Nat) : Rat) * 3600 + ((0 : Nat) : Rat) * 60 +
          (((30 : Nat) : Rat) + ((500 : Nat) : Rat) / (10 : Rat) ^ 3)) := rfl
    rw [h]; norm_num
  · have h : parseDuration "50%" =
        JsNum.val ((1 * scalePow10 (((50 : Nat) : Rat)) 0) / 100) := rfl
    rw [h]
    simp [scalePow10]
    norm_num
  · intro h1 h2 h3
    have h2' : findTimecode s.data = none := h2
    simp [parseDuration, h1, h2', h3, JsNum.or0]
  · intro h1 h2
    simp [parseDuration, h1, h2]

/-- The URL used by the repo's own macro tests: one `[ASSETURI]` token. -/
def c7AssetUrl : String := "https://example.com/track?asset=[ASSETURI]"

/-- A URL carrying every conditional macro token and no unconditional one. -/
def c7AllConditionalUrl : String :=
  "https://ex.example/t?a=[ASSETURI]&c=[CONTENTPLAYHEAD]&p=[ADPLAYHEAD]&e=[ERRORCODE]&b=[BREAKPOSITION]&y=[ADTYPE]"

/-- `leadsWith` holds exactly when the pattern is a leading segment. -/
theorem leadsWith_iff (pat l : List Char) :
    leadsWith pat l = true ↔ ∃ rest, l = pat ++ rest := by
  induction pat generalizing l with
  | nil => simp [leadsWith]
  | cons p ps ih =>
    cases l with
    | nil => simp [leadsWith]
    | cons c cs =>
      simp only [leadsWith, Bool.and_eq_true, beq_iff_eq, List.cons_append,
        List.cons.injEq, ih]
      constructor
      · rintro ⟨rfl, rest, rfl⟩
        exact ⟨rest, rfl, rfl⟩
      · rintro ⟨rest, rfl, rfl⟩
        exact ⟨rfl, rest, rfl⟩

/-- A pattern leads any extension of itself. -/
theorem leadsWith_append (pat rest : List Char) : leadsWith pat (pat ++ rest) = true :=
  (leadsWith_iff pat _).mpr ⟨rest, rfl⟩

/-- A sublist occurrence is a leading occurrence of some suffix. -/
theorem hasSubList_iff_drop (pat l : List Char) :
    hasSubList pat l = true ↔ ∃ k, leadsWith pat (l.drop k) = true := by
  induction l with
  | nil =>
    constructor
    · intro h; exact ⟨0, h⟩
    · rintro ⟨k, hk⟩; simpa using hk
  | cons c cs ih =>
    simp only [hasSubList, Bool.or_eq_true]
    constructor
    · rintro (h | h)
      · exact ⟨0, h⟩
      · obtain ⟨k, hk⟩ := ih.mp h
        exact ⟨k + 1, hk⟩
    · rintro ⟨k, hk⟩
      cases k with
      | zero => exact Or.inl hk
      | succ k' => exact Or.inr (ih.mpr ⟨k', hk⟩)

/-- An occurrence in the right part of an append is an occurrence. -/
theorem hasSubList_append_right (pat r s : List Char) (h : hasSubList pat s = true) :
    hasSubList pat (r ++ s) = true := by
  induction r with
  | nil => simpa using h
  | cons c cs ih =>
    simp only [List.cons_append, hasSubList, Bool.or_eq_true]
    exact Or.inr ih

/-- An occurrence in the tail is an occurrence. -/
theorem hasSubList_cons_of (pat : List Char) (c : Char) (cs : List Char)
    (h : hasSubList pat cs = true) : hasSubList pat (c :: cs) = true := by
  simp only [hasSubList, Bool.or_eq_true]
  exact Or.inr h

/-- Where the pattern leads, the text agrees with it position by position. -/
theorem leadsWith_getElem? (pat l : List Char) (h : leadsWith pat l = true) (k : Nat)
    (hk : k < pat.length) : l[k]? = pat[k]? := by
  obtain ⟨rest, rfl⟩ := (leadsWith_iff pat l).mp h
  exact List.getElem?_append_left hk

/-- The shape every VAST macro token shares: an opening bracket, a bracket-free
name, a closing bracket. -/
def isMacroToken (t : List Char) : Prop :=
  ∃ name : List Char, t = '[' :: (name ++ [']']) ∧ ∀ c ∈ name, c ≠ '[' ∧ c ≠ ']'

theorem isMacroToken.ne_nil {t : List Char} (h : isMacroToken t) : t ≠ [] := by
  obtain ⟨name, rfl, -⟩ := h; simp

theorem isMacroToken.two_le {t : List Char} (h : isMacroToken t) : 2 ≤ t.length := by
  obtain ⟨name, rfl, -⟩ := h
  simp only [List.length_cons, List.length_append, List.length_singleton]
  omega

theorem isMacroToken.head_eq {t : List Char} (h : isMacroToken t) : t[0]? = some '[' := by
  obtain ⟨name, rfl, -⟩ := h; simp

theorem isMacroToken.getElem_last {t : List Char} (h : isMacroToken t) :
    t[t.length - 1]? = some ']' := by
  obtain ⟨name, rfl, -⟩ := h
  rw [show ('[' :: (name ++ [']'])).length - 1 = name.length + 1 by simp]
  rw [List.getElem?_cons_succ, List.getElem?_append_right (le_refl _)]
  simp

theorem isMacroToken.inside_ne_lbracket {t : List Char} (h : isMacroToken t) {k : Nat}
    (hk1 : 1 ≤ k) (hk2 : k < t.length) : t[k]? ≠ some '[' := by
  obtain ⟨name, rfl, hname⟩ := h
  obtain ⟨j, rfl⟩ : ∃ j, k = j + 1 := ⟨k - 1, by omega⟩
  rw [List.getElem?_cons_succ]
  by_cases hj : j < name.length
  · rw [List.getElem?_append_left hj]
    intro hcon
    exact (hname '[' (List.getElem?_mem hcon)).1 rfl
  · have hlen : j < name.length + 1 := by
      simp at hk2
      omega
    have hj' : j = name.length := by omega
    subst hj'
    rw [List.getElem?_append_right (le_refl _)]
    simp

theorem isMacroToken.rbracket_only_last {t : List Char} (h : isMacroToken t) {k : Nat}
    (hk : k < t.length) (he : t[k]? = some ']') : k = t.length - 1 := by
  obtain ⟨name, rfl, hname⟩ := h
  cases k with
  | zero => simp at he
  | succ j =>
    rw [List.getElem?_cons_succ] at he
    by_cases hj : j < name.length
    · rw [List.getElem?_append_left hj] at he
      exact absurd rfl (hname ']' (List.getElem?_mem he)).2
    · have hlen : j < name.length + 1 := by
        simp at hk
        omega
      have hj' : j = name.length := by omega
      subst hj'
      simp

/-- Two macro tokens leading the same text are equal (shorter-first half). -/
theorem macroToken_lead_eq_aux {T P l : List Char} (hT : isMacroToken T)
    (hP : isMacroToken P) (hlen : T.length ≤ P.length)
    (h1 : leadsWith T l = true) (h2 : leadsWith P l = true) : T = P := by
  have hT2 := hT.two_le
  have hP2 := hP.two_le
  have hkey : P[T.length - 1]? = some ']' := by
    rw [← leadsWith_getElem? P l h2 (T.length - 1) (by omega),
      leadsWith_getElem? T l h1 (T.length - 1) (by omega)]
    exact hT.getElem_last
  have hlast := hP.rbracket_only_last (by omega) hkey
  have hlen' : T.length = P.length := by omega
  apply List.ext_getElem?
  intro k
  by_cases hk : k < T.length
  · rw [← leadsWith_getElem? T l h1 k hk, leadsWith_getElem? P l h2 k (by omega)]
  · rw [List.getElem?_eq_none (by omega), List.getElem?_eq_none (by omega)]

/-- Two macro tokens leading the same text are equal. -/
theorem macroToken_lead_eq {T P l : List Char} (hT : isMacroToken T)
    (hP : isMacroToken P) (h1 : leadsWith T l = true) (h2 : leadsWith P l = true) :
    T = P := by
  rcases le_total T.length P.length with hle | hle
  · exact macroToken_lead_eq_aux hT hP hle h1 h2
  · exact (macroToken_lead_eq_aux hP hT hle h2 h1).symm

/-- No macro token can start strictly inside another token's occurrence. -/
theorem macroToken_no_lead_inside {T P l : List Char} (hT : isMacroToken T)
    (hP : isMacroToken P) (hlP : leadsWith P l = true) (k : Nat) (hk1 : 1 ≤ k)
    (hk2 : k < P.length) : leadsWith T (l.drop k) = false := by
  cases hlead : leadsWith T (l.drop k) with
  | false => rfl
  | true =>
    exfalso
    have hT2 := hT.two_le
    have hhead : (l.drop k)[0]? = T[0]? :=
      leadsWith_getElem? T _ hlead 0 (by omega)
    rw [hT.head_eq] at hhead
    rw [List.getElem?_drop] at hhead
    simp only [Nat.add_zero] at hhead
    rw [leadsWith_getElem? P l hlP k hk2] at hhead
    exact hP.inside_ne_lbracket hk1 hk2 hhead

/-- As long as no pattern occurrence starts within the first `m` positions,
replacement keeps the first `m` characters intact. -/
theorem replaceAllFuel_take_of_no_lead (P R : List Char) :
    ∀ (m fuel : Nat) (s : List Char),
      (∀ j, j < m → leadsWith P (s.drop j) = false) →
      ∃ tail, replaceAllFuel P R fuel s = s.take m ++ tail := by
  intro m
  induction m with
  | zero => intro fuel s _; exact ⟨replaceAllFuel P R fuel s, by simp⟩
  | succ m' ih =>
    intro fuel s h
    cases s with
    | nil => exact ⟨[], by cases fuel <;> simp [replaceAllFuel]⟩
    | cons c cs =>
      cases fuel with
      | zero =>
        exact ⟨(c :: cs).drop (m' + 1), by simp [replaceAllFuel]⟩
      | succ n =>
        have h0 : leadsWith P (c :: cs) = false := by simpa using h 0 (by omega)
        rw [replaceAllFuel, if_neg (by simp [h0])]
        obtain ⟨tail, htail⟩ := ih n cs (fun j hj => by simpa using h (j + 1) (by omega))
        exact ⟨tail, by simp [htail]⟩

/-- Replacing one macro token never destroys an occurrence of a different
macro token: distinct bracketed tokens cannot overlap, so the occurrence
survives the left-to-right rewrite. -/
theorem hasSub_replaceAllFuel {T P : List Char} (R : List Char)
    (hT : isMacroToken T) (hP : isMacroToken P) (hne : T ≠ P) :
    ∀ (fuel : Nat) (l : List Char), l.length ≤ fuel → hasSubList T l = true →
      hasSubList T (replaceAllFuel P R fuel l) = true := by
  intro fuel
  induction fuel with
  | zero =>
    intro l hlen h
    have hl : l = [] := List.eq_nil_of_length_eq_zero (by omega)
    subst hl
    obtain ⟨name, rfl, -⟩ := hT
    simp [hasSubList, leadsWith] at h
  | succ n ih =>
    intro l hlen h
    cases l with
    | nil =>
      obtain ⟨name, rfl, -⟩ := hT
      simp [hasSubList, leadsWith] at h
    | cons c cs =>
      by_cases hm : leadsWith P (c :: cs) = true
      · rw [show replaceAllFuel P R (n + 1) (c :: cs) =
            R ++ replaceAllFuel P R n ((c :: cs).drop P.length) by
          rw [replaceAllFuel, if_pos ⟨hP.ne_nil, hm⟩]]
        obtain ⟨k, hk⟩ := (hasSubList_iff_drop T (c :: cs)).mp h
        have hkP : P.length ≤ k := by
          by_contra hklt
          push_neg at hklt
          rcases Nat.eq_zero_or_pos k with hk0 | hkpos
          · subst hk0
            simp only [List.drop_zero] at hk
            exact hne (macroToken_lead_eq hT hP hk hm)
          · rw [macroToken_no_lead_inside hT hP hm k hkpos hklt] at hk
            exact Bool.false_ne_true hk
        apply hasSubList_append_right
        apply ih _ ?_ ?_
        · have hP1 : 1 ≤ P.length := by have := hP.two_le; omega
          simp only [List.length_drop, List.length_cons] at *
          omega
        · apply (hasSubList_iff_drop T _).mpr
          refine ⟨k - P.length, ?_⟩
          rw [List.drop_drop, show P.length + (k - P.length) = k by omega]
          exact hk
      · rw [show replaceAllFuel P R (n + 1) (c :: cs) =
            c :: replaceAllFuel P R n cs by
          rw [replaceAllFuel, if_neg (by simp [hm])]]
        simp only [hasSubList, Bool.or_eq_true] at h
        rcases h with h | h
        · obtain ⟨rest, hrest⟩ := (leadsWith_iff T (c :: cs)).mp h
          obtain ⟨name, hTeq, hname⟩ := id hT
          have hc : c = '[' ∧ cs = (name ++ [']']) ++ rest := by
            rw [hTeq] at hrest
            simp only [List.cons_append, List.cons.injEq] at hrest
            exact hrest
          have hno : ∀ j, j < (name ++ [']']).length →
              leadsWith P (cs.drop j) = false := by
            intro j hj
            have := macroToken_no_lead_inside hP hT h (j + 1) (by omega)
              (by rw [hTeq]; simp only [List.length_cons, List.length_append,
                List.length_singleton] at hj ⊢; omega)
            simpa using this
          obtain ⟨tail, htail⟩ := replaceAllFuel_take_of_no_lead P R
            (name ++ [']']).length n cs hno
          have htake : cs.take (name ++ [']']).length = name ++ [']'] := by
            rw [hc.2]
            exact List.take_left _ _
          simp only [hasSubList, Bool.or_eq_true]
          left
          rw [htail, htake, hc.1, hTeq]
          exact leadsWith_append _ _
        · exact hasSubList_cons_of _ _ _ (ih cs (by simpa using Nat.le_of_succ_le_succ hlen) h)

/-- The fuel value is irrelevant once it covers the text length. -/
theorem replaceAllFuel_irrel (P R : List Char) :
    ∀ (f1 f2 : Nat) (l : List Char), l.length ≤ f1 → l.length ≤ f2 →
      replaceAllFuel P R f1 l = replaceAllFuel P R f2 l := by
  intro f1
  induction f1 with
  | zero =>
    intro f2 l h1 _
    have hl : l = [] := List.eq_nil_of_length_eq_zero (by omega)
    subst hl
    cases f2 <;> rfl
  | succ n ih =>
    intro f2 l h1 h2
    cases l with
    | nil => cases f2 <;> rfl
    | cons c cs =>
      cases f2 with
      | zero => simp at h2
      | succ m =>
        by_cases hm : P ≠ [] ∧ leadsWith P (c :: cs) = true
        · rw [replaceAllFuel, if_pos hm, replaceAllFuel, if_pos hm]
          congr 1
          have hP1 : 1 ≤ P.length := by
            cases P with
            | nil => exact absurd rfl hm.1
            | cons p ps => simp
          apply ih
          · simp only [List.length_drop, List.length_cons] at *; omega
          · simp only [List.length_drop, List.length_cons] at *; omega
        · rw [replaceAllFuel, if_neg hm, replaceAllFuel, if_neg hm]
          congr 1
          exact ih m cs (by simpa using Nat.le_of_succ_le_succ h1)
            (by simpa using Nat.le_of_succ_le_succ h2)

/-- When the pattern occurs, replacement rewrites its leftmost occurrence:
the text splits around that occurrence, and the output is the untouched
prefix, the replacement, and the rewritten remainder. -/
theorem replaceAllL_decomp (P R : List Char) (hne : P ≠ []) :
    ∀ l : List Char, hasSubList P l = true →
      ∃ pre post, l = pre ++ P ++ post ∧
        (∀ j, j < pre.length → leadsWith P (l.drop j) = false) ∧
        replaceAllL P R l = pre ++ R ++ replaceAllL P R post := by
  intro l
  induction l with
  | nil =>
    intro h
    cases P with
    | nil => exact absurd rfl hne
    | cons p ps => simp [hasSubList, leadsWith] at h
  | cons c cs ih =>
    intro h
    by_cases hm : leadsWith P (c :: cs) = true
    · obtain ⟨rest, hrest⟩ := (leadsWith_iff _ _).mp hm
      refine ⟨[], rest, by simpa using hrest, by simp, ?_⟩
      have hP1 : 1 ≤ P.length := by
        cases P with
        | nil => exact absurd rfl hne
        | cons p ps => simp
      have hlenrest : rest.length ≤ cs.length := by
        have : (c :: cs).length = P.length + rest.length := by
          rw [hrest]; simp
        simp only [List.length_cons] at this
        omega
      unfold replaceAllL
      rw [show (c :: cs).length = cs.length + 1 from rfl, replaceAllFuel,
        if_pos ⟨hne, hm⟩]
      simp only [List.nil_append]
      congr 1
      rw [show (c :: cs).drop P.length = rest by rw [hrest]; exact List.drop_left _ _]
      exact replaceAllFuel_irrel P R cs.length rest.length rest hlenrest (le_refl _)
    · have h' : hasSubList P cs = true := by
        simp only [hasSubList, Bool.or_eq_true] at h
        rcases h with h | h
        · exact absurd h hm
        · exact h
      obtain ⟨pre, post, hsplit, hnolead, hrepl⟩ := ih h'
      refine ⟨c :: pre, post, by simp [hsplit], ?_, ?_⟩
      · intro j hj
        cases j with
        | zero =>
          simp only [List.drop_zero]
          exact Bool.not_eq_true _ ▸ Bool.eq_false_iff.mpr hm
        | succ j' =>
          simpa using hnolead j' (by simpa using hj)
      · unfold replaceAllL
        rw [show (c :: cs).length = cs.length + 1 from rfl, replaceAllFuel,
          if_neg (by simp [hm])]
        rw [show replaceAllFuel P R cs.length cs = replaceAllL P R cs from rfl, hrepl]
        simp [replaceAllL]

/-- The eight macro tokens `replaceMacros` scans for, in application order. -/
def macroTokens : List String :=
  ["[TIMESTAMP]", "[CACHEBUSTING]", "[ASSETURI]", "[CONTENTPLAYHEAD]",
    "[ADPLAYHEAD]", "[ERRORCODE]", "[BREAKPOSITION]", "[ADTYPE]"]

/-- Every scanned macro token has the bracketed shape. -/
theorem isMacroToken_of_mem : ∀ t ∈ macroTokens, isMacroToken t.toList := by
  intro t ht
  simp only [macroTokens, List.mem_cons, List.not_mem_nil, or_false] at ht
  rcases ht with rfl | rfl | rfl | rfl | rfl | rfl | rfl | rfl
  · exact ⟨"TIMESTAMP".toList, by decide, by decide⟩
  · exact ⟨"CACHEBUSTING".toList, by decide, by decide⟩
  · exact ⟨"ASSETURI".toList, by decide, by decide⟩
  · exact ⟨"CONTENTPLAYHEAD".toList, by decide, by decide⟩
  · exact ⟨"ADPLAYHEAD".toList, by decide, by decide⟩
  · exact ⟨"ERRORCODE".toList, by decide, by decide⟩
  · exact ⟨"BREAKPOSITION".toList, by decide, by decide⟩
  · exact ⟨"ADTYPE".toList, by decide, by decide⟩

/-- Strings with equal character lists are equal. -/
theorem string_ext_toList {s t : String} (h : s.toList = t.toList) : s = t := by
  cases s; cases t; exact congrArg String.mk h

/-- String-level survival: replacing one macro token keeps any occurrence of a
different macro token. -/
theorem strIncludes_strReplaceAll_macro (s P R T : String)
    (hTm : T ∈ macroTokens) (hPm : P ∈ macroTokens) (hne : T ≠ P)
    (h : strIncludes s T = true) :
    strIncludes (strReplaceAll s P R) T = true := by
  have hT := isMacroToken_of_mem T hTm
  have hP := isMacroToken_of_mem P hPm
  have hne' : T.toList ≠ P.toList := fun hl => hne (string_ext_toList hl)
  show hasSubList T.toList (replaceAllL P.toList R.toList s.toList) = true
  exact hasSub_replaceAllFuel R.toList hT hP hne' s.toList.length s.toList
    (le_refl _) h

/-- The `[TIMESTAMP]` statement of `replaceMacros` (`src/utils/macros.ts`). -/
def applyTimestampMacro (now : String) (r : String) : String :=
  strReplaceAll r "[TIMESTAMP]" now

/-- The `[CACHEBUSTING]` statement of `replaceMacros`. -/
def applyCacheBustingMacro (rand : String) (r : String) : String :=
  strReplaceAll r "[CACHEBUSTING]" rand

/-- The guarded `[ASSETURI]` statement of `replaceMacros`. -/
def applyAssetUriMacro (context : MacroContext) (r : String) : String :=
  match context.assetUri with
  | some a => strReplaceAll r "[ASSETURI]" (encodeURIComponent a)
  | none => r

/-- The guarded `[CONTENTPLAYHEAD]` statement of `replaceMacros`. -/
def applyContentPlayheadMacro (context : MacroContext) (r : String) : String :=
  match context.contentPlayhead with
  | some p => strReplaceAll r "[CONTENTPLAYHEAD]" (formatPlayhead p)
  | none => r

/-- The guarded `[ADPLAYHEAD]` statement of `replaceMacros`. -/
def applyAdPlayheadMacro (context : MacroContext) (r : String) : String :=
  match context.adPlayhead with
  | some p => strReplaceAll r "[ADPLAYHEAD]" (formatPlayhead p)
  | none => r

/-- The guarded `[ERRORCODE]` statement of `replaceMacros`. -/
def applyErrorCodeMacro (context : MacroContext) (r : String) : String :=
  match context.errorCode with
  | some e => strReplaceAll r "[ERRORCODE]" (toString e)
  | none => r

/-- The guarded `[BREAKPOSITION]` statement of `replaceMacros`. -/
def applyBreakPositionMacro (context : MacroContext) (r : String) : String :=
  match context.breakPosition with
  | some b => strReplaceAll r "[BREAKPOSITION]" (toString b)
  | none => r

/-- The guarded `[ADTYPE]` statement of `replaceMacros`. -/
def applyAdTypeMacro (context : MacroContext) (r : String) : String :=
  match context.adType with
  | some t => strReplaceAll r "[ADTYPE]" t
  | none => r

/-- `replaceMacros` is the in-order composition of its eight statements. -/
theorem replaceMacros_eq_steps (now rand url : String) (context : MacroContext) :
    replaceMacros now rand url context =
      applyAdTypeMacro context (applyBreakPositionMacro context
        (applyErrorCodeMacro context (applyAdPlayheadMacro context
          (applyContentPlayheadMacro context (applyAssetUriMacro context
            (applyCacheBustingMacro rand (applyTimestampMacro now url))))))) := rfl

/-- The timestamp step keeps every other macro token. -/
theorem applyTimestampMacro_keeps (now r T : String) (hTm : T ∈ macroTokens)
    (hne : T ≠ "[TIMESTAMP]") (h : strIncludes r T = true) :
    strIncludes (applyTimestampMacro now r) T = true :=
  strIncludes_strReplaceAll_macro r "[TIMESTAMP]" now T hTm (by decide) hne h

/-- The cache-busting step keeps every other macro token. -/
theorem applyCacheBustingMacro_keeps (rand r T : String) (hTm : T ∈ macroTokens)
    (hne : T ≠ "[CACHEBUSTING]") (h : strIncludes r T = true) :
    strIncludes (applyCacheBustingMacro rand r) T = true :=
  strIncludes_strReplaceAll_macro r "[CACHEBUSTING]" rand T hTm (by decide) hne h

/-- The asset-URI step keeps every other macro token. -/
theorem applyAssetUriMacro_keeps (context : MacroContext) (r T : String)
    (hTm : T ∈ macroTokens) (hne : T ≠ "[ASSETURI]") (h : strIncludes r T = true) :
    strIncludes (applyAssetUriMacro context r) T = true := by
  unfold applyAssetUriMacro
  cases context.assetUri with
  | none => exact h
  | some a =>
    exact strIncludes_strReplaceAll_macro r "[ASSETURI]" (encodeURIComponent a) T
      hTm (by decide) hne h

/-- The content-playhead step keeps every other macro token. -/
theorem applyContentPlayheadMacro_keeps (context : MacroContext) (r T : String)
    (hTm : T ∈ macroTokens) (hne : T ≠ "[CONTENTPLAYHEAD]")
    (h : strIncludes r T = true) :
    strIncludes (applyContentPlayheadMacro context r) T = true := by
  unfold applyContentPlayheadMacro
  cases context.contentPlayhead with
  | none => exact h
  | some p =>
    exact strIncludes_strReplaceAll_macro r "[CONTENTPLAYHEAD]" (formatPlayhead p) T
      hTm (by decide) hne h

/-- The ad-playhead step keeps every other macro token. -/
theorem applyAdPlayheadMacro_keeps (context : MacroContext) (r T : String)
    (hTm : T ∈ macroTokens) (hne : T ≠ "[ADPLAYHEAD]") (h : strIncludes r T = true) :
    strIncludes (applyAdPlayheadMacro context r) T = true := by
  unfold applyAdPlayheadMacro
  cases context.adPlayhead with
  | none => exact h
  | some p =>
    exact strIncludes_strReplaceAll_macro r "[ADPLAYHEAD]" (formatPlayhead p) T
      hTm (by decide) hne h

/-- The error-code step keeps every other macro token. -/
theorem applyErrorCodeMacro_keeps (context : MacroContext) (r T : String)
    (hTm : T ∈ macroTokens) (hne : T ≠ "[ERRORCODE]") (h : strIncludes r T = true) :
    strIncludes (applyErrorCodeMacro context r) T = true := by
  unfold applyErrorCodeMacro
  cases context.errorCode with
  | none => exact h
  | some e =>
    exact strIncludes_strReplaceAll_macro r "[ERRORCODE]" (toString e) T
      hTm (by decide) hne h

/-- The break-position step keeps every other macro token. -/
theorem applyBreakPositionMacro_keeps (context : MacroContext) (r T : String)
    (hTm : T ∈ macroTokens) (hne : T ≠ "[BREAKPOSITION]")
    (h : strIncludes r T = true) :
    strIncludes (applyBreakPositionMacro context r) T = true := by
  unfold applyBreakPositionMacro
  cases context.breakPosition with
  | none => exact h
  | some b =>
    exact strIncludes_strReplaceAll_macro r "[BREAKPOSITION]" (toString b) T
      hTm (by decide) hne h

/-- The ad-type step keeps every other macro token. -/
theorem applyAdTypeMacro_keeps (context : MacroContext) (r T : String)
    (hTm : T ∈ macroTokens) (hne : T ≠ "[ADTYPE]") (h : strIncludes r T = true) :
    strIncludes (applyAdTypeMacro context r) T = true := by
  unfold applyAdTypeMacro
  cases context.adType with
  | none => exact h
  | some t =>
    exact strIncludes_strReplaceAll_macro r "[ADTYPE]" t T hTm (by decide) hne h

/-- C7: for every URL and every macro context, `replaceMacros` is the in-order
composition of its eight per-token statements; each of the six conditional
steps is the identity when its context field is absent, and performs exactly
its token's substitution (percent-encoded asset URI, formatted playheads,
decimal codes, raw ad type) when the field is present; `strReplaceAll`
genuinely rewrites the leftmost pattern occurrence and recurses on the
remainder; consequently, under arbitrary mixed contexts, every conditional
token whose field is absent and which occurs in the URL survives to the
output as a literal bracketed token; concretely, the all-absent context
leaves a URL carrying all six conditional tokens unchanged, and a present
`assetUri` is percent-encoded and substituted, matching the repo's own test
vector. -/
theorem C7_conditional_macros (now rand url : String) (context : MacroContext) :
    (replaceMacros now rand url context =
      applyAdTypeMacro context (applyBreakPositionMacro context
        (applyErrorCodeMacro context (applyAdPlayheadMacro context
          (applyContentPlayheadMacro context (applyAssetUriMacro context
            (applyCacheBustingMacro rand (applyTimestampMacro now url)))))))) ∧
    ((∀ s, context.assetUri = none → applyAssetUriMacro context s = s) ∧
     (∀ s a, context.assetUri = some a →
       applyAssetUriMacro context s = strReplaceAll s "[ASSETURI]" (encodeURIComponent a)) ∧
     (∀ s, context.contentPlayhead = none → applyContentPlayheadMacro context s = s) ∧
     (∀ s p, context.contentPlayhead = some p →
       applyContentPlayheadMacro context s = strReplaceAll s "[CONTENTPLAYHEAD]" (formatPlayhead p)) ∧
     (∀ s, context.adPlayhead = none → applyAdPlayheadMacro context s = s) ∧
     (∀ s p, context.adPlayhead = some p →
       applyAdPlayheadMacro context s = strReplaceAll s "[ADPLAYHEAD]" (formatPlayhead p)) ∧
     (∀ s, context.errorCode = none → applyErrorCodeMacro context s = s) ∧
     (∀ s e, context.errorCode = some e →
       applyErrorCodeMacro context s = strReplaceAll s "[ERRORCODE]" (toString e)) ∧
     (∀ s, context.breakPosition = none → applyBreakPositionMacro context s = s) ∧
     (∀ s b, context.breakPosition = some b →
       applyBreakPositionMacro context s = strReplaceAll s "[BREAKPOSITION]" (toString b)) ∧
     (∀ s, context.adType = none → applyAdTypeMacro context s = s) ∧
     (∀ s t, context.adType = some t →
       applyAdTypeMacro context s = strReplaceAll s "[ADTYPE]" t)) ∧
    (∀ (s pat repl : String), pat.toList ≠ [] → hasSubList pat.toList s.toList = true →
      ∃ pre post, s.toList = pre ++ pat.toList ++ post ∧
        (∀ j, j < pre.length → leadsWith pat.toList (s.toList.drop j) = false) ∧
        (strReplaceAll s pat repl).toList =
          pre ++ repl.toList ++ replaceAllL pat.toList repl.toList post) ∧
    ((context.assetUri = none → strIncludes url "[ASSETURI]" = true →
       strIncludes (replaceMacros now rand url context) "[ASSETURI]" = true) ∧
     (context.contentPlayhead = none → strIncludes url "[CONTENTPLAYHEAD]" = true →
       strIncludes (replaceMacros now rand url context) "[CONTENTPLAYHEAD]" = true) ∧
     (context.adPlayhead = none → strIncludes url "[ADPLAYHEAD]" = true →
       strIncludes (replaceMacros now rand url context) "[ADPLAYHEAD]" = true) ∧
     (context.errorCode = none → strIncludes url "[ERRORCODE]" = true →
       strIncludes (replaceMacros now rand url context) "[ERRORCODE]" = true) ∧
     (context.breakPosition = none → strIncludes url "[BREAKPOSITION]" = true →
       strIncludes (replaceMacros now rand url context) "[BREAKPOSITION]" = true) ∧
     (context.adType = none → strIncludes url "[ADTYPE]" = true →
       strIncludes (replaceMacros now rand url context) "[ADTYPE]" = true)) ∧
    (replaceMacros now rand c7AllConditionalUrl {} = c7AllConditionalUrl ∧
     replaceMacros now rand c7AssetUrl { assetUri := some "https://cdn.example.com/video.mp4" } =
       "https://example.com/track?asset=https%3A%2F%2Fcdn.example.com%2Fvideo.mp4") := by
  refine ⟨rfl, ?_, ?_, ?_, ?_⟩
  · refine ⟨?_, ?_, ?_, ?_, ?_, ?_, ?_, ?_, ?_, ?_, ?_, ?_⟩ <;>
      first
        | (intro s hs; simp [applyAssetUriMacro, applyContentPlayheadMacro,
            applyAdPlayheadMacro, applyErrorCodeMacro, applyBreakPositionMacro,
            applyAdTypeMacro, hs])
        | (intro s v hs; simp [applyAssetUriMacro, applyContentPlayheadMacro,
            applyAdPlayheadMacro, applyErrorCodeMacro, applyBreakPositionMacro,
            applyAdTypeMacro, hs])
  · intro s pat repl hne hsub
    obtain ⟨pre, post, h1, h2, h3⟩ := replaceAllL_decomp pat.toList repl.toList hne
      s.toList hsub
    exact ⟨pre, post, h1, h2, by simpa [strReplaceAll] using h3⟩
  · refine ⟨?_, ?_, ?_, ?_, ?_, ?_⟩
    · intro habs hurl
      rw [replaceMacros_eq_steps]
      refine applyAdTypeMacro_keeps _ _ _ (by decide) (by decide) ?_
      refine applyBreakPositionMacro_keeps _ _ _ (by decide) (by decide) ?_
      refine applyErrorCodeMacro_keeps _ _ _ (by decide) (by decide) ?_
      refine applyAdPlayheadMacro_keeps _ _ _ (by decide) (by decide) ?_
      refine applyContentPlayheadMacro_keeps _ _ _ (by decide) (by decide) ?_
      rw [show applyAssetUriMacro context (applyCacheBustingMacro rand
          (applyTimestampMacro now url)) = applyCacheBustingMacro rand
          (applyTimestampMacro now url) by simp [applyAssetUriMacro, habs]]
      refine applyCacheBustingMacro_keeps _ _ _ (by decide) (by decide) ?_
      exact applyTimestampMacro_keeps _ _ _ (by decide) (by decide) hurl
    · intro habs hurl
      rw [replaceMacros_eq_steps]
      refine applyAdTypeMacro_keeps _ _ _ (by decide) (by decide) ?_
      refine applyBreakPositionMacro_keeps _ _ _ (by decide) (by decide) ?_
      refine applyErrorCodeMacro_keeps _ _ _ (by decide) (by decide) ?_
      refine applyAdPlayheadMacro_keeps _ _ _ (by decide) (by decide) ?_
      rw [show applyContentPlayheadMacro context (applyAssetUriMacro context
          (applyCacheBustingMacro rand (applyTimestampMacro now url))) =
          applyAssetUriMacro context (applyCacheBustingMacro rand
          (applyTimestampMacro now url)) by simp [applyContentPlayheadMacro, habs]]
      refine applyAssetUriMacro_keeps _ _ _ (by decide) (by decide) ?_
      refine applyCacheBustingMacro_keeps _ _ _ (by decide) (by decide) ?_
      exact applyTimestampMacro_keeps _ _ _ (by decide) (by decide) hurl
    · intro habs hurl
      rw [replaceMacros_eq_steps]
      refine applyAdTypeMacro_keeps _ _ _ (by decide) (by decide) ?_
      refine applyBreakPositionMacro_keeps _ _ _ (by decide) (by decide) ?_
      refine applyErrorCodeMacro_keeps _ _ _ (by decide) (by decide) ?_
      rw [show applyAdPlayheadMacro context (applyContentPlayheadMacro context
          (applyAssetUriMacro context (applyCacheBustingMacro rand
          (applyTimestampMacro now url)))) = applyContentPlayheadMacro context
          (applyAssetUriMacro context (applyCacheBustingMacro rand
          (applyTimestampMacro now url))) by simp [applyAdPlayheadMacro, habs]]
      refine applyContentPlayheadMacro_keeps _ _ _ (by decide) (by decide) ?_
      refine applyAssetUriMacro_keeps _ _ _ (by decide) (by decide) ?_
      refine applyCacheBustingMacro_keeps _ _ _ (by decide) (by decide) ?_
      exact applyTimestampMacro_keeps _ _ _ (by decide) (by decide) hurl
    · intro habs hurl
      rw [replaceMacros_eq_steps]
      refine applyAdTypeMacro_keeps _ _ _ (by decide) (by decide) ?_
      refine applyBreakPositionMacro_keeps _ _ _ (by decide) (by decide) ?_
      rw [show applyErrorCodeMacro context (applyAdPlayheadMacro context
          (applyContentPlayheadMacro context (applyAssetUriMacro context
          (applyCacheBustingMacro rand (applyTimestampMacro now url))))) =
          applyAdPlayheadMacro context (applyContentPlayheadMacro context
          (applyAssetUriMacro context (applyCacheBustingMacro rand
          (applyTimestampMacro now url)))) by simp [applyErrorCodeMacro, habs]]
      refine applyAdPlayheadMacro_keeps _ _ _ (by decide) (by decide) ?_
      refine applyContentPlayheadMacro_keeps _ _ _ (by decide) (by decide) ?_
      refine applyAssetUriMacro_keeps _ _ _ (by decide) (by decide) ?_
      refine applyCacheBustingMacro_keeps _ _ _ (by decide) (by decide) ?_
      exact applyTimestampMacro_keeps _ _ _ (by decide) (by decide) hurl
    · intro habs hurl
      rw [replaceMacros_eq_steps]
      refine applyAdTypeMacro_keeps _ _ _ (by decide) (by decide) ?_
      rw [show applyBreakPositionMacro context (applyErrorCodeMacro context
          (applyAdPlayheadMacro context (applyContentPlayheadMacro context
          (applyAssetUriMacro context (applyCacheBustingMacro rand
          (applyTimestampMacro now url)))))) = applyErrorCodeMacro context
          (applyAdPlayheadMacro context (applyContentPlayheadMacro context
          (applyAssetUriMacro context (applyCacheBustingMacro rand
          (applyTimestampMacro now url))))) by simp [applyBreakPositionMacro, habs]]
      refine applyErrorCodeMacro_keeps _ _ _ (by decide) (by decide) ?_
      refine applyAdPlayheadMacro_keeps _ _ _ (by decide) (by decide) ?_
      refine applyContentPlayheadMacro_keeps _ _ _ (by decide) (by decide) ?_
      refine applyAssetUriMacro_keeps _ _ _ (by decide) (by decide) ?_
      refine applyCacheBustingMacro_keeps _ _ _ (by decide) (by decide) ?_
      exact applyTimestampMacro_keeps _ _ _ (by decide) (by decide) hurl
    · intro habs hurl
      rw [replaceMacros_eq_steps]
      rw [show applyAdTypeMacro context (applyBreakPositionMacro context
          (applyErrorCodeMacro context (applyAdPlayheadMacro context
          (applyContentPlayheadMacro context (applyAssetUriMacro context
          (applyCacheBustingMacro rand (applyTimestampMacro now url))))))) =
          applyBreakPositionMacro context (applyErrorCodeMacro context
          (applyAdPlayheadMacro context (applyContentPlayheadMacro context
          (applyAssetUriMacro context (applyCacheBustingMacro rand
          (applyTimestampMacro now url)))))) by simp [applyAdTypeMacro, habs]]
      refine applyBreakPositionMacro_keeps _ _ _ (by decide) (by decide) ?_
      refine applyErrorCodeMacro_keeps _ _ _ (by decide) (by decide) ?_
      refine applyAdPlayheadMacro_keeps _ _ _ (by decide) (by decide) ?_
      refine applyContentPlayheadMacro_keeps _ _ _ (by decide) (by decide) ?_
      refine applyAssetUriMacro_keeps _ _ _ (by decide) (by decide) ?_
      refine applyCacheBustingMacro_keeps _ _ _ (by decide) (by decide) ?_
      exact applyTimestampMacro_keeps _ _ _ (by decide) (by decide) hurl
  · have hTS : ∀ r, strReplaceAll c7AssetUrl "[TIMESTAMP]" r = c7AssetUrl :=
      fun r => strReplaceAll_not_occur _ _ _ (by decide)
    have hCB : ∀ r, strReplaceAll c7AssetUrl "[CACHEBUSTING]" r = c7AssetUrl :=
      fun r => strReplaceAll_not_occur _ _ _ (by decide)
    have hTS2 : ∀ r, strReplaceAll c7AllConditionalUrl "[TIMESTAMP]" r = c7AllConditionalUrl :=
      fun r => strReplaceAll_not_occur _ _ _ (by decide)
    have hCB2 : ∀ r, strReplaceAll c7AllConditionalUrl "[CACHEBUSTING]" r = c7AllConditionalUrl :=
      fun r => strReplaceAll_not_occur _ _ _ (by decide)
    constructor
    · unfold replaceMacros
      dsimp only
      rw [hTS2, hCB2]
    · unfold replaceMacros
      dsimp only
      rw [hTS, hCB]
      decide

theorem C7_conditional_macros_witness :
    ({ errorCode := some 301 : MacroContext }).assetUri = none ∧
    strIncludes c7AssetUrl "[ASSETURI]" = true ∧
    strIncludes
      (replaceMacros "1767312000000" "k7q2w9" c7AssetUrl { errorCode := some 301 })
      "[ASSETURI]" = true ∧
    (∃ pre post, c7AssetUrl.toList = pre ++ "[ASSETURI]".toList ++ post ∧
      (∀ j, j < pre.length →
        leadsWith "[ASSETURI]".toList (c7AssetUrl.toList.drop j) = false) ∧
      (strReplaceAll c7AssetUrl "[ASSETURI]" "x").toList =
        pre ++ "x".toList ++ replaceAllL "[ASSETURI]".toList "x".toList post) := by
  have h := C7_conditional_macros "1767312000000" "k7q2w9" c7AssetUrl
    { errorCode := some 301 }
  exact ⟨rfl, by decide, h.2.2.2.1.1 rfl (by decide),
    h.2.2.1 c7AssetUrl "[ASSETURI]" "x" (by decide) (by decide)⟩

theorem C6_parseTimeExpression_witness :
    (strEndsWith "abc" "%" = false ∧ findTimecode "abc".toList = none ∧
      parseFloat "abc" = JsNum.nan ∧ parseDuration "abc" = JsNum.val 0) ∧
    (strEndsWith "xyz%" "%" = true ∧ parseFloat "xyz%" = JsNum.nan ∧
      parseDuration "xyz%" = JsNum.nan) :=
  ⟨⟨by decide, by decide, by decide,
      (C6_parseTimeExpression "abc").2.2.2.2.1 (by decide) (by decide) (by decide)⟩,
    ⟨by decide, by decide,
      (C6_parseTimeExpression "xyz%").2.2.2.2.2 (by decide) (by decide)⟩⟩

/-- The ad served by the C5 world: it carries an error-tracking URL but no
Linear creative, so `init` must fail with `GENERAL_LINEAR_ERROR` (400). -/
def c5Ad : Ad :=
  { id := "a1", errors := ["http://err.example/track"], creatives := [{}] }

/-- A world serving the no-linear document for every URL. -/
def c5World : World := fun _ => .response 200 "OK" (some { ads := [c5Ad] })

/-- The C5 session configuration (all defaults). -/
def c5Config : AdPlayerConfig := { vastUrl := "https://ads.example/vast.xml" }

/-- C5: the claim says every terminal error — including resolution-phase
failures such as "no Linear creative found" — fires error-tracking pixels over
every collected error URL before the error callback.  The code violates this:
during `init` failures the tracker is still `null`, so
`this.tracker?.fireError(...)` silently fires nothing even though `handleError`
collected a non-empty error-URL list.  Evaluated at the failing input: the
session ends in `Error` 400 with one collected error URL, yet the effect log
contains no pixel at all — only the error event and the error callback. -/
theorem C5_resolution_error_fires_no_pixels :
    (PlayerState.init c5World c5Config initialPlayerState true "1767312000000" "cb").1.status =
      PlaybackStatus.error ∧
    (PlayerState.init c5World c5Config initialPlayerState true "1767312000000" "cb").1.lastError =
      some { code := VASTErrorCode.GENERAL_LINEAR_ERROR
             message := "No linear creative found"
             recoverable := false } ∧
    (PlayerState.init c5World c5Config initialPlayerState true "1767312000000" "cb").1.ads.foldr
      (fun ad acc => ad.errors ++ acc) [] = ["http://err.example/track"] ∧
    (PlayerState.init c5World c5Config initialPlayerState true "1767312000000" "cb").2 =
      [Effect.emitted "error" [], Effect.callback "onError"] := by
  have h1 : resolveAdList c5World 5 [c5Ad] 1 = .ok [[c5Ad]] := by
    rw [resolveAdList_single, if_neg (by simp [hasWrapperTag, c5Ad])]
  have h2 : fetchAndParse c5World 5 c5Config.vastUrl 0 =
      .ok { version := "4.0", ads := [c5Ad], errors := [] } := by
    rw [fetchAndParse_step c5World 5 _ 0 (by omega) (some { ads := [c5Ad] })
      (by unfold fetchWithTimeout; simp [c5World])
      { version := "4.0", ads := [c5Ad], errors := [] } rfl]
    simp [h1]
  have h3 : VASTParser.parse c5World c5Config.maxWrapperDepth c5Config.vastUrl =
      { success := true
        response := some { version := "4.0", ads := [c5Ad], errors := [] }
        error := none } := by
    unfold VASTParser.parse
    rw [show fetchAndParse c5World c5Config.maxWrapperDepth c5Config.vastUrl 0 =
        .ok { version := "4.0", ads := [c5Ad], errors := [] } from h2]
  simp only [PlayerState.init, h3]
  refine ⟨rfl, rfl, rfl, rfl⟩

/-- Count of tracker pixels in an effect log fired for `eventType`, by raw
registered URL `u`. -/
def countTrackPixels (log : List Effect) (eventType u : String) : Nat :=
  log.countP (fun ef =>
    match ef with
    | .trackPixel et raw _ => et == eventType && raw == u
    | _ => false)

/-- The `start` pixels of one `handlePlaybackStart` run: each URL registered
for `start` in a fresh tracker is delivered exactly once. -/
theorem handlePlaybackStart_start_count (cfg : AdPlayerConfig) (st : PlayerState)
    (t : TrackerState) (htr : st.tracker = some t) (hfresh : t.firedEvents = [])
    (now rand u : String) :
    countTrackPixels (st.handlePlaybackStart cfg now rand).2 "start" u =
      (if ((getKey "start" t.trackingEvents).getD []).any (fun ev => ev.url == u)
        then 1 else 0) := by
  obtain ⟨hcnt, _, _, _⟩ := track_true_spec t "start" now rand u
  unfold PlayerState.handlePlaybackStart PlayerState.trackEvent
  simp only [htr]
  simp only [countTrackPixels, PlayerState.emit, List.countP_append, List.countP_map,
    List.countP_cons, List.countP_nil]
  simp only [Function.comp_def]
  simp only [countRaw] at hcnt
  simp [hcnt, hfresh]

/-- C8: a rejected playback-start attempt transitions to
`WaitingForInteraction` — never to `Error` — with no tracking fired; a
subsequent accepted interactive start is identical, state and effects alike,
to the direct Ready-to-Playing transition, and fires the start tracking
exactly once per registered start URL (not twice). -/
theorem C8_autoplay_soft_fail (cfg : AdPlayerConfig) (st : PlayerState) (t : TrackerState)
    (hvid : st.videoElement = true) (hov : st.overlayElement = false)
    (htr : st.tracker = some t) (hfresh : t.firedEvents = [])
    (now1 rand1 now2 rand2 u : String) :
    ((st.attemptAutoplay cfg false now1 rand1).1.status =
      PlaybackStatus.waitingForInteraction) ∧
    ((st.attemptAutoplay cfg false now1 rand1).1.status ≠ PlaybackStatus.error) ∧
    ((st.attemptAutoplay cfg false now1 rand1).2 = []) ∧
    ((st.attemptAutoplay cfg false now1 rand1).1.onStartClick cfg true "" now2 rand2 =
      st.handlePlaybackStart cfg now2 rand2) ∧
    (countTrackPixels ((st.attemptAutoplay cfg false now1 rand1).2 ++
        ((st.attemptAutoplay cfg false now1 rand1).1.onStartClick cfg true "" now2 rand2).2)
        "start" u =
      (if ((getKey "start" t.trackingEvents).getD []).any (fun ev => ev.url == u)
        then 1 else 0)) := by
  obtain ⟨status, currentTime, duration, muted, volume, canSkip, skipCountdown, mediaFile,
    lastError, ads, tracker, videoElement, overlayElement, skipButtonElement, focusTrap,
    listeners, quartilesFired⟩ := st
  simp only at hvid hov htr
  subst hvid
  subst hov
  subst htr
  refine ⟨rfl, ?_, rfl, rfl, ?_⟩
  · exact fun h => nomatch h
  have hlog : ((PlayerState.mk status currentTime duration muted volume canSkip skipCountdown
        mediaFile lastError ads (some t) true false skipButtonElement focusTrap
        listeners quartilesFired).attemptAutoplay cfg false now1 rand1).2 ++
      (((PlayerState.mk status currentTime duration muted volume canSkip skipCountdown
        mediaFile lastError ads (some t) true false skipButtonElement focusTrap
        listeners quartilesFired).attemptAutoplay cfg false now1 rand1).1.onStartClick
        cfg true "" now2 rand2).2 =
      ((PlayerState.mk status currentTime duration muted volume canSkip skipCountdown
        mediaFile lastError ads (some t) true false skipButtonElement focusTrap
        listeners quartilesFired).handlePlaybackStart cfg now2 rand2).2 := rfl
  rw [hlog]
  exact handlePlaybackStart_start_count cfg _ t rfl hfresh now2 rand2 u

/-- The tracker the C8 witness session is seeded with. -/
def c8Tracker : TrackerState :=
  mkTracker [{ event := "start", url := "http://t.example/s" }]

/-- A Ready-state player with a live surface and a fresh tracker. -/
def c8State : PlayerState :=
  { status := .ready, videoElement := true, tracker := some c8Tracker }

/-- The C8 witness session configuration. -/
def c8Config : AdPlayerConfig := { vastUrl := "https://ads.example/vast.xml" }

theorem C8_autoplay_soft_fail_witness :
    c8State.videoElement = true ∧ c8State.overlayElement = false ∧
    c8State.tracker = some c8Tracker ∧ c8Tracker.firedEvents = [] ∧
    (c8State.attemptAutoplay c8Config false "n1" "r1").1.status =
      PlaybackStatus.waitingForInteraction ∧
    countTrackPixels ((c8State.attemptAutoplay c8Config false "n1" "r1").2 ++
        ((c8State.attemptAutoplay c8Config false "n1" "r1").1.onStartClick
          c8Config true "" "n2" "r2").2)
      "start" "http://t.example/s" = 1 := by
  have h := C8_autoplay_soft_fail c8Config c8State c8Tracker rfl rfl rfl rfl
    "n1" "r1" "n2" "r2" "http://t.example/s"
  refine ⟨rfl, rfl, rfl, rfl, h.1, ?_⟩
  rw [h.2.2.2.2]
  decide

end Adgent
